import Mathlib

/-!
# Verification of the thallos-llm-service SQL pipeline

A shallow embedding, over `List Char`, of the SQL safety pipeline of the
thallos-llm-service repository:

* the string-literal masking guard `guardSql` of `src/api/query.js`
  (lines 115–204), together with its `ensureLimit` (lines 26–28);
* the non-masking guard `guardSql` and clamping `ensureLimit` of
  `src/lib/guard.js`;
* the heuristic rewriter `tweakSqlHeuristics` (`src/api/query.js`
  lines 59–112);
* the empty-result fallback `stripTimeFilterIfAny` (lines 48–56);
* the request coordinator of `src/api/query.js` (`handler`,
  lines 239–431), modelled as a trace-producing function over oracles
  for the database and the language model.

JavaScript regular expressions are embedded by their extensional
semantics: a `test` becomes a decidable existence of a match position, a
global `replace` becomes a left-to-right scanner that consumes each match
and resumes at its end, exactly as the JS engine advances `lastIndex`.
All definitions are executable so that theorems can be checked on
concrete inputs by `decide`.
-/

set_option maxHeartbeats 1000000
set_option maxRecDepth 4000

namespace Thallos

/-- Character lists; every JS string is embedded as its list of characters. -/
abbrev Chars := List Char

/-- JS `\s` (whitespace), restricted to the ASCII whitespace appearing in SQL text. -/
def isSp (c : Char) : Bool := c.isWhitespace

/-- JS `\w`: `[A-Za-z0-9_]`. -/
def isWordC (c : Char) : Bool := c.isAlphanum || c = '_'

/-- First character of an identifier: `[a-z_]` under the `i` flag. -/
def isId0 (c : Char) : Bool := c.isAlpha || c = '_'

/-- Later characters of an identifier: `[a-z0-9_]` under the `i` flag. -/
def isIdC (c : Char) : Bool := c.isAlphanum || c = '_'

/-- Decimal digit, JS `\d`. -/
def isDigitC (c : Char) : Bool := c.isDigit

/-- Lower-case a character list (JS `toLowerCase`, ASCII). -/
def lcL (l : Chars) : Chars := l.map Char.toLower

/-- Upper-case a character list (JS `toUpperCase`, ASCII). -/
def ucL (l : Chars) : Chars := l.map Char.toUpper

/-- JS `String.prototype.trim`. -/
def trimL (l : Chars) : Chars :=
  ((l.dropWhile isSp).reverse.dropWhile isSp).reverse

/-- Head satisfies a predicate. -/
def headIs (p : Char → Bool) (l : Chars) : Bool :=
  match l.head? with
  | some c => p c
  | none => false

/-- The character at index `i`, if any, is a word character. -/
def wcAt (l : Chars) (i : Nat) : Bool := headIs isWordC (l.drop i)

/-- JS `\b` at position `p` of `l`: the two sides disagree on being a
word character (a missing side counts as non-word). -/
def bAt (l : Chars) (p : Nat) : Bool :=
  (if p = 0 then false else wcAt l (p - 1)) != wcAt l p

/-- The pattern occurs verbatim at position `i`. -/
def seqAt (pat l : Chars) (i : Nat) : Bool := pat.isPrefixOf (l.drop i)

/-- The pattern occurs case-insensitively at position `i` (the `i` flag). -/
def ciSeqAt (pat l : Chars) (i : Nat) : Bool :=
  (lcL pat).isPrefixOf (lcL (l.drop i))

/-- `pat` occurs somewhere in `l` (JS `regex.test` for a literal pattern). -/
def hasSeq (pat l : Chars) : Bool :=
  (List.range (l.length + 1)).any (fun i => seqAt pat l i)

/-- `pat` occurs somewhere in `l`, case-insensitively. -/
def hasSeqCI (pat l : Chars) : Bool :=
  (List.range (l.length + 1)).any (fun i => ciSeqAt pat l i)

/-- `\bpat\b` (case-insensitive) occurs at position `i`. -/
def wordAt (w l : Chars) (i : Nat) : Bool :=
  ciSeqAt w l i && bAt l i && bAt l (i + w.length)

/-- `\bpat\b` (case-insensitive) occurs somewhere in `l`. -/
def wordOccurs (w l : Chars) : Bool :=
  (List.range (l.length + 1)).any (wordAt w l)

/-! ## String-literal masking (`stripStrings`, src/api/query.js line 119)

`text.replace(/'(?:''|[^'])*'/g, m => ' '.repeat(m.length))`.

The regex matches an opening quote, a greedy sequence of units (each unit
an escaped quote `''` or a non-quote character), and a closing quote; on
backtracking the engine settles on the longest closing position whose
preceding content is a valid unit sequence. -/

/-- Valid literal content: every maximal run of quotes has even length,
i.e. the text parses as a sequence of `''` and non-quote units. -/
def litContentOk : Chars → Bool
  | [] => true
  | '\'' :: '\'' :: t => litContentOk t
  | '\'' :: _ => false
  | _ :: t => litContentOk t

/-- Offsets `k` into `t` (the text after an opening quote) at which the
literal may close: `t[k]` is a quote and `t.take k` is valid content. -/
def closeIdxs (t : Chars) : List Nat :=
  (List.range t.length).filter
    (fun k => headIs (fun c => c = '\'') (t.drop k) && litContentOk (t.take k))

/-- The greedy (longest) closing offset, if the literal closes at all. -/
def lastClose (t : Chars) : Option Nat := (closeIdxs t).getLast?

/-- Fuelled masking scan; one unit of fuel is spent per step and every
step consumes at least one character, so `l.length` fuel suffices. -/
def maskScanF : Nat → Chars → Chars
  | 0, l => l
  | _ + 1, [] => []
  | fuel + 1, '\'' :: t =>
    match lastClose t with
    | some k => List.replicate (k + 2) ' ' ++ maskScanF fuel (t.drop (k + 1))
    | none => '\'' :: maskScanF fuel t
  | fuel + 1, c :: t => c :: maskScanF fuel t

/-- `stripStrings`: replace each single-quoted literal by spaces of equal length. -/
def maskScan (l : Chars) : Chars := maskScanF l.length l

/-! ## Statement preparation (src/api/query.js lines 116–117)

`let s = String(sql || '').trim(); if (s.endsWith(';')) s = s.slice(0, -1).trim();` -/

def prepSql (l : Chars) : Chars :=
  let s := trimL l
  if s.getLast? = some ';' then trimL s.dropLast else s

/-! ## Lexical checks of the masking guard (src/api/query.js lines 123–129)

All of these run on the masked text `sNoStrings`. -/

/-- `/^\s*(select|with)\b/i`. -/
def startsSelectWith (m : Chars) : Bool :=
  let r := m.dropWhile isSp
  (ciSeqAt "select".data r 0 && bAt r 6) || (ciSeqAt "with".data r 0 && bAt r 4)

/-- The keywords of `/\b(update|insert|delete|drop|alter|truncate|create|grant|revoke|copy|vacuum|analyze)\b/i`. -/
def forbiddenKws : List Chars :=
  ["update".data, "insert".data, "delete".data, "drop".data, "alter".data,
   "truncate".data, "create".data, "grant".data, "revoke".data, "copy".data,
   "vacuum".data, "analyze".data]

def hasForbidden (m : Chars) : Bool := forbiddenKws.any (fun w => wordOccurs w m)

/-- `/(--|\/\*)/`. -/
def hasComment (m : Chars) : Bool := hasSeq "--".data m || hasSeq "/*".data m

/-- `normalizeTable` (line 131): drop a leading `public.` (case-insensitive)
and lower-case. -/
def normalizeTable (t : Chars) : Chars :=
  lcL (if ciSeqAt "public.".data t 0 then t.drop 7 else t)

/-! ## Alias collection: `/\)\s+([a-z_][a-z0-9_]*)/gi` (lines 135–138) -/

def aliasScanF : Nat → Chars → List Chars
  | 0, _ => []
  | _ + 1, [] => []
  | fuel + 1, ')' :: t =>
    let sp := t.takeWhile isSp
    let r := t.drop sp.length
    if sp ≠ [] && headIs isId0 r then
      let idt := r.takeWhile isIdC
      lcL idt :: aliasScanF fuel (r.drop idt.length)
    else aliasScanF fuel t
  | fuel + 1, _ :: t => aliasScanF fuel t

def aliasScan (m : Chars) : List Chars := aliasScanF m.length m

/-! ## CTE-name collection (lines 139–142)

`/(?:^|\bwith|,)\s*([a-z_][a-z0-9_]*)\s*(?:\([^)]+\))?\s+as\s*\(/gi` -/

/-- Attempt the body of the CTE regex (everything after the trigger
alternation) at the head of `l`; returns the captured name and the rest
of the text after the match. The optional parenthesised column list is
tried greedily first, falling back to the branch without it, exactly as
the backtracking engine does. -/
def cteBody (l : Chars) : Option (Chars × Chars) :=
  let l1 := l.dropWhile isSp
  if !headIs isId0 l1 then none
  else
    let idt := l1.takeWhile isIdC
    let l2 := l1.drop idt.length
    let sp2 := l2.takeWhile isSp
    let l3 := l2.drop sp2.length
    let finishAs : Chars → Option (Chars × Chars) := fun r =>
      -- `as\s*\(` at the head of `r`
      if ciSeqAt "as".data r 0 then
        let l6 := (r.drop 2).dropWhile isSp
        match l6.head? with
        | some '(' => some (idt, l6.tail)
        | _ => none
      else none
    match l3.head? with
    | some '(' =>
      -- present branch of `(?:\([^)]+\))?`
      let inner := l3.tail.takeWhile (fun c => c ≠ ')')
      if inner = [] then none
      else
        match (l3.tail.drop inner.length).head? with
        | some ')' =>
          let l4 := l3.tail.drop (inner.length + 1)
          let sp3 := l4.takeWhile isSp
          if sp3 ≠ [] then finishAs (l4.drop sp3.length) else none
        | _ => none
    | _ =>
      -- absent branch: `\s+as` directly after the name
      if sp2 ≠ [] then finishAs l3 else none

/-- Global scan for the CTE regex. `atStart` is true only at position 0
(the `^` trigger); `prevW` records whether the previous character is a
word character (for the `\b` in `\bwith`). -/
def cteScanF : Nat → Chars → Bool → Bool → List Chars
  | 0, _, _, _ => []
  | _ + 1, [], _, _ => []
  | fuel + 1, c :: t, atStart, prevW =>
    match (if atStart then cteBody (c :: t) else none) with
    | some (idt, rest) => lcL idt :: cteScanF fuel rest false false
    | none =>
      match (if !prevW && ciSeqAt "with".data (c :: t) 0
             then cteBody ((c :: t).drop 4) else none) with
      | some (idt, rest) => lcL idt :: cteScanF fuel rest false false
      | none =>
        match (if c = ',' then cteBody t else none) with
        | some (idt, rest) => lcL idt :: cteScanF fuel rest false false
        | none => cteScanF fuel t false (isWordC c)

def cteScan (m : Chars) : List Chars := cteScanF m.length m true false

/-! ## FROM/JOIN table extraction (lines 144–157)

`/\b(?:from|join)\s+([a-z_][a-z0-9_]*(?:\s*\.\s*[a-z_][a-z0-9_]*)?)(\s*\(|\s|$)/gi`

The code then strips whitespace from the capture
(`m[1].replace(/\s+/g, '')`); the scanner below returns the capture
already stripped, together with whether the second group matched the
`\s*\(` alternative (`looksFunc`). -/

def allowedSrfs : List Chars := ["generate_series".data, "unnest".data]

/-- The second group `(\s*\(|\s|$)` of the from/join pattern, the
alternatives tried in order; returns `(looksFunc, rest)`. -/
def fjTail (l6 : Chars) : Option (Bool × Chars) :=
  let spB := l6.takeWhile isSp
  let l7 := l6.drop spB.length
  match l7.head? with
  | some '(' => some (true, l7.tail)
  | _ =>
    match l6.head? with
    | some c => if isSp c then some (false, l6.tail) else none
    | none => some (false, [])

/-- Attempt the from/join pattern with the keyword at the head of `l`
(the caller has checked the leading `\b`). Returns
`((strippedCapture, looksFunc), rest)`. The optional dotted part of the
capture is tried greedily first; when the second group cannot follow
it, the engine backtracks to the bare-identifier capture, exactly as
the JS engine retries the optional group absent. -/
def fromJoinMatchAt (l : Chars) : Option ((Chars × Bool) × Chars) :=
  if ciSeqAt "from".data l 0 || ciSeqAt "join".data l 0 then
    let l1 := l.drop 4
    let sp1 := l1.takeWhile isSp
    if sp1 = [] then none
    else
      let l2 := l1.drop sp1.length
      if !headIs isId0 l2 then none
      else
        let id1 := l2.takeWhile isIdC
        let l3 := l2.drop id1.length
        -- optional `\s*\.\s*[a-z_][a-z0-9_]*`
        let dotted : Option (Chars × Chars) :=
          let spA := l3.takeWhile isSp
          let l4 := l3.drop spA.length
          match l4.head? with
          | some '.' =>
            let l5 := l4.tail.dropWhile isSp
            if headIs isId0 l5 then
              let id2 := l5.takeWhile isIdC
              some (id1 ++ '.' :: id2, l5.drop id2.length)
            else none
          | _ => none
        match dotted with
        | some (raw, l6) =>
          match fjTail l6 with
          | some (f, rest) => some ((raw, f), rest)
          | none =>
            match fjTail l3 with
            | some (f, rest) => some ((id1, f), rest)
            | none => none
        | none =>
          match fjTail l3 with
          | some (f, rest) => some ((id1, f), rest)
          | none => none
  else none

def fromJoinScanF : Nat → Chars → Bool → List (Chars × Bool)
  | 0, _, _ => []
  | _ + 1, [], _ => []
  | fuel + 1, c :: t, prevW =>
    match (if !prevW then fromJoinMatchAt (c :: t) else none) with
    | some (cap, rest) => cap :: fromJoinScanF fuel rest false
    | none => fromJoinScanF fuel t (isWordC c)

def fromJoinScan (m : Chars) : List (Chars × Bool) := fromJoinScanF m.length m false

/-! ## Qualified-reference table extraction (lines 158–171)

`/\b([a-z_][a-z0-9_]*(?:\s*\.\s*[a-z_][a-z0-9_]*)?)\s*\.\s*[a-z_][a-z0-9_]*/gi`

captures the qualifier; `m[1].replace(/\s+/g, '')` strips it. -/

/-- `\s*\.\s*[a-z_][a-z0-9_]*` at the head of `r`; returns the rest after
the identifier. -/
def dotIdTail (r : Chars) : Option Chars :=
  let r1 := r.dropWhile isSp
  match r1.head? with
  | some '.' =>
    let r2 := r1.tail.dropWhile isSp
    if headIs isId0 r2 then some (r2.drop (r2.takeWhile isIdC).length) else none
  | _ => none

/-- Attempt the qualified-reference pattern with the first identifier at
the head of `l`; returns `(strippedQualifier, rest)`. The optional
dotted part of the qualifier is tried greedily, falling back to the
plain-identifier qualifier when the required final `.col` cannot follow. -/
def qualColMatchAt (l : Chars) : Option (Chars × Chars) :=
  if !headIs isId0 l then none
  else
    let id1 := l.takeWhile isIdC
    let l1 := l.drop id1.length
    let opt : Option (Chars × Chars) :=
      let r1 := l1.dropWhile isSp
      match r1.head? with
      | some '.' =>
        let r2 := r1.tail.dropWhile isSp
        if headIs isId0 r2 then
          let id2 := r2.takeWhile isIdC
          some (id2, r2.drop id2.length)
        else none
      | _ => none
    match opt with
    | some (id2, l2) =>
      match dotIdTail l2 with
      | some rest => some (id1 ++ '.' :: id2, rest)
      | none =>
        match dotIdTail l1 with
        | some rest => some (id1, rest)
        | none => none
    | none =>
      match dotIdTail l1 with
      | some rest => some (id1, rest)
      | none => none

def qualColScanF : Nat → Chars → Bool → List Chars
  | 0, _, _ => []
  | _ + 1, [], _ => []
  | fuel + 1, c :: t, prevW =>
    match (if !prevW then qualColMatchAt (c :: t) else none) with
    | some (q, rest) => q :: qualColScanF fuel rest true
    | none => qualColScanF fuel t (isWordC c)

def qualColScan (m : Chars) : List Chars := qualColScanF m.length m false

/-- JS `Set` insertion. -/
def addUniq (l : List Chars) (x : Chars) : List Chars :=
  if l.contains x then l else l ++ [x]

/-- The `tableCandidates` set (lines 145–171), in insertion order. -/
def tableCandidates (m : Chars) (aliases : List Chars) : List Chars :=
  let fj := (fromJoinScan m).foldl
    (fun acc p =>
      let base := lcL (p.1.takeWhile (fun c => c ≠ '.'))
      if p.2 && allowedSrfs.contains base then acc
      else
        let cand := normalizeTable p.1
        if aliases.contains cand then acc else addUniq acc cand) []
  (qualColScan m).foldl
    (fun acc q =>
      if q.contains '.' then
        let tbl := normalizeTable q
        if aliases.contains tbl then acc else addUniq acc tbl
      else acc) fj

/-! ## Fully-qualified column extraction (lines 179–201)

`sNoStrings.match(/\b([a-z_][a-z0-9_]*(?:\.[a-z_][a-z0-9_]*)?)\s*\.\s*([a-z_][a-z0-9_]*)/gi)`

With the `g` flag, `match` yields the array of full match texts; each is
then `split('.')` (so spaces around the final dot stay attached to the
parts). Note the optional part of the qualifier here has no `\s*`. -/

/-- `\s*\.\s*([a-z_][a-z0-9_]*)` at the head of `r`; returns the raw
matched text (including the spaces) and the rest. -/
def dotIdTailRaw (r : Chars) : Option (Chars × Chars) :=
  let sp := r.takeWhile isSp
  let r1 := r.drop sp.length
  match r1.head? with
  | some '.' =>
    let sp2 := r1.tail.takeWhile isSp
    let r2 := r1.tail.drop sp2.length
    if headIs isId0 r2 then
      let id3 := r2.takeWhile isIdC
      some (sp ++ '.' :: (sp2 ++ id3), r2.drop id3.length)
    else none
  | _ => none

/-- Attempt the fully-qualified-column pattern at the head of `l`;
returns the full match text and the rest. -/
def fqColMatchAt (l : Chars) : Option (Chars × Chars) :=
  if !headIs isId0 l then none
  else
    let id1 := l.takeWhile isIdC
    let l1 := l.drop id1.length
    let opt : Option (Chars × Chars) :=
      match l1.head? with
      | some '.' =>
        if headIs isId0 l1.tail then
          let id2 := l1.tail.takeWhile isIdC
          some ('.' :: id2, l1.tail.drop id2.length)
        else none
      | _ => none
    match opt with
    | some (optRaw, l2) =>
      match dotIdTailRaw l2 with
      | some (reqRaw, rest) => some (id1 ++ optRaw ++ reqRaw, rest)
      | none =>
        match dotIdTailRaw l1 with
        | some (reqRaw, rest) => some (id1 ++ reqRaw, rest)
        | none => none
    | none =>
      match dotIdTailRaw l1 with
      | some (reqRaw, rest) => some (id1 ++ reqRaw, rest)
      | none => none

def fqColScanF : Nat → Chars → Bool → List Chars
  | 0, _, _ => []
  | _ + 1, [], _ => []
  | fuel + 1, c :: t, prevW =>
    match (if !prevW then fqColMatchAt (c :: t) else none) with
    | some (ref, rest) => ref :: fqColScanF fuel rest true
    | none => fqColScanF fuel t (isWordC c)

def fqColScan (m : Chars) : List Chars := fqColScanF m.length m false

/-- Column allow-list lookup (the `whitelistColsByTable` `Map`). -/
def lookupCols (cols : List (Chars × List Chars)) (t : Chars) : Option (List Chars) :=
  (cols.find? (fun p => p.1 == t)).map (·.2)

/-- Process one extracted reference (the body of the loop at lines
182–200): returns `some (tbl, col)` when the reference violates the
column allow-list, `none` when it passes. -/
def colCheckOne (aliases : List Chars) (cols : List (Chars × List Chars))
    (ref : Chars) : Option (Chars × Chars) :=
  let parts := ref.splitOn '.'
  let tbl0 :=
    if parts.length ≥ 3 then lcL (parts.getD (parts.length - 2) [])
    else lcL (parts.getD 0 [])
  let col :=
    if parts.length ≥ 3 then lcL (parts.getD (parts.length - 1) [])
    else lcL (parts.getD 1 [])
  let tbl := if ciSeqAt "public.".data tbl0 0 then tbl0.drop 7 else tbl0
  if allowedSrfs.contains tbl then none
  else if aliases.contains tbl then none
  else
    match lookupCols cols tbl with
    | some allowed => if allowed.contains col then none else some (tbl, col)
    | none => none

/-! ## LIMIT normalisation and the two guards -/

/-- Decimal digit characters of `n` (the JS number-to-string
conversion), most significant first, no leading zeros. -/
def natDigitsF : Nat → Nat → Chars
  | 0, _ => []
  | fuel + 1, n =>
    if n < 10 then [Char.ofNat (48 + n)]
    else natDigitsF fuel (n / 10) ++ [Char.ofNat (48 + n % 10)]

def natDigits (n : Nat) : Chars := natDigitsF (n + 1) n

/-- `\blimit\s+\d+\b` at position `i` (case-insensitive); returns the
match length when it matches. -/
def limitTokAt (l : Chars) (i : Nat) : Option Nat :=
  if bAt l i && ciSeqAt "limit".data l i then
    let r := l.drop (i + 5)
    let sp := r.takeWhile isSp
    if sp = [] then none
    else
      let d := (r.drop sp.length).takeWhile isDigitC
      if d ≠ [] && !wcAt r (sp.length + d.length) then some (5 + sp.length + d.length)
      else none
  else none

/-- `/\blimit\s+\d+\b/i.test` -/
def hasLimitTok (l : Chars) : Bool :=
  (List.range (l.length + 1)).any (fun i => (limitTokAt l i).isSome)

/-- `ensureLimit` of src/api/query.js (lines 26–28): appends `LIMIT n`
when no limit token is present; an existing one is returned unchanged. -/
def ensureLimitApi (sql : Chars) (n : Nat) : Chars :=
  if hasLimitTok sql then sql
  else trimL sql ++ '\n' :: ("LIMIT ".data ++ natDigits n)

/-- The `aliasSet` of lines 134–142: derived-table aliases and CTE names. -/
def guardAliases (m : Chars) : List Chars := aliasScan m ++ cteScan m

/-- The first candidate failing the table allow-list check of lines
173–177 (`t && !whitelistTables.has(t)`). -/
def tableOffender (m : Chars) (tables : List Chars) : Option Chars :=
  (tableCandidates m (guardAliases m)).find? (fun t => t ≠ [] && !tables.contains t)

/-- The first extracted reference failing the column allow-list check of
lines 180–201. -/
def colOffender (m : Chars) (cols : List (Chars × List Chars)) : Option (Chars × Chars) :=
  (fqColScan m).findSome? (colCheckOne (guardAliases m) cols)

/-- The guard of src/api/query.js (lines 115–204) without the final
LIMIT normalisation: exactly the accept/reject decision, with the same
error strings. Every check reads the masked text. -/
def guardChecks (m : Chars) (tables : List Chars) (cols : List (Chars × List Chars)) :
    Except String Unit :=
  if !startsSelectWith m then
    .error "Only SELECT (or WITH ... SELECT) statements are allowed."
  else if m.contains ';' then .error "Multiple statements are not allowed."
  else if hasForbidden m then .error "Write/DDL statements are not allowed."
  else if hasComment m then .error "SQL comments are not allowed."
  else
    match tableOffender m tables with
    | some t => .error ("Table not allowed: " ++ String.mk t)
    | none =>
      match colOffender m cols with
      | some pr => .error ("Column not allowed: " ++ String.mk pr.1 ++ "." ++ String.mk pr.2)
      | none => .ok ()

/-- `guardSql` of src/api/query.js. -/
def guardSqlApi (sql : Chars) (tables : List Chars) (cols : List (Chars × List Chars)) :
    Except String Chars :=
  (guardChecks (maskScan (prepSql sql)) tables cols).map
    (fun _ => ensureLimitApi (prepSql sql) 500)

/-- The accept/reject decision (and error) of `guardSqlApi`. -/
def guardDecision (sql : Chars) (tables : List Chars) (cols : List (Chars × List Chars)) :
    Except String Unit :=
  guardChecks (maskScan (prepSql sql)) tables cols

/-! ## src/lib/guard.js -/

/-- Decimal digits to a natural number (JS `parseInt(n, 10)` on an
all-digit string; leading zeros allowed). -/
def charsToNat (d : Chars) : Nat := d.foldl (fun a c => a * 10 + (c.toNat - 48)) 0

/-- `\blimit\s+(\d+)\b` with the keyword at the head (leading `\b`
checked by the caller): returns the digit capture and the rest. -/
def limitTokAtHead (l : Chars) : Option (Chars × Chars) :=
  if ciSeqAt "limit".data l 0 then
    let r := l.drop 5
    let sp := r.takeWhile isSp
    if sp = [] then none
    else
      let d := (r.drop sp.length).takeWhile isDigitC
      if d ≠ [] && !wcAt r (sp.length + d.length) then
        some (d, r.drop (sp.length + d.length))
      else none
  else none

/-- The global clamping replace of lib/guard.js `ensureLimit`
(lines 6–10): each `LIMIT n` becomes
`LIMIT ${Math.min(parseInt(n, 10) || maxLimit, maxLimit)}`. Returns the
rewritten text and whether any limit token was found. -/
def limitClampF : Nat → Chars → Bool → Nat → Chars × Bool
  | 0, l, _, _ => (l, false)
  | _ + 1, [], _, _ => ([], false)
  | fuel + 1, c :: t, prevW, maxL =>
    match (if !prevW then limitTokAtHead (c :: t) else none) with
    | some (d, rest) =>
      let p := charsToNat d
      let v := if p = 0 then maxL else min p maxL
      let out := limitClampF fuel rest true maxL
      ("LIMIT ".data ++ natDigits v ++ out.1, true)
    | none =>
      let out := limitClampF fuel t (isWordC c) maxL
      (c :: out.1, out.2)

/-- `ensureLimit` of src/lib/guard.js (lines 3–13): clamp every limit,
or append one when none exists. -/
def ensureLimitLib (sql : Chars) (maxLimit : Nat) : Chars :=
  let r := limitClampF sql.length sql false maxLimit
  if r.2 then r.1
  else trimL sql ++ '\n' :: ("LIMIT ".data ++ natDigits maxLimit)

/-- `/;s*$/` — as written in lib/guard.js line 33 (a literal `s`, not
`\s`): a semicolon followed by zero or more `s` characters at the end. -/
def endsSemiTypo (s : Chars) : Bool :=
  headIs (fun c => c = ';') (s.reverse.dropWhile (fun c => c = 's'))

/-- `s.replace(/;+\s*$/g, '')`. -/
def stripTrailSemis (s : Chars) : Chars :=
  let r := s.reverse
  let sp := r.takeWhile isSp
  let semis := (r.drop sp.length).takeWhile (fun c => c = ';')
  if semis ≠ [] then ((r.drop sp.length).drop semis.length).reverse else s

/-- `/\b(?:pg_catalog|pg_toast|information_schema)\./i` at position `i`. -/
def sysSchemaAt (s : Chars) (i : Nat) : Bool :=
  bAt s i &&
    (ciSeqAt "pg_catalog.".data s i || ciSeqAt "pg_toast.".data s i ||
      ciSeqAt "information_schema.".data s i)

def hasSysSchema (s : Chars) : Bool :=
  (List.range (s.length + 1)).any (sysSchemaAt s)

/-- `\b(?:from|join)\s+(\w+)\.(\w+)\b` with the keyword at the head. -/
def fqTableMatchAt (l : Chars) : Option ((Chars × Chars) × Chars) :=
  if ciSeqAt "from".data l 0 || ciSeqAt "join".data l 0 then
    let l1 := l.drop 4
    let sp := l1.takeWhile isSp
    if sp = [] then none
    else
      let l2 := l1.drop sp.length
      let w1 := l2.takeWhile isWordC
      if w1 = [] then none
      else
        let l3 := l2.drop w1.length
        match l3.head? with
        | some '.' =>
          let w2 := l3.tail.takeWhile isWordC
          if w2 ≠ [] then some ((w1, w2), l3.tail.drop w2.length) else none
        | _ => none
  else none

def fqTableScanF : Nat → Chars → Bool → List Chars
  | 0, _, _ => []
  | _ + 1, [], _ => []
  | fuel + 1, c :: t, prevW =>
    match (if !prevW then fqTableMatchAt (c :: t) else none) with
    | some (pr, rest) =>
      (lcL pr.1 ++ '.' :: lcL pr.2) :: fqTableScanF fuel rest true
    | none => fqTableScanF fuel t (isWordC c)

/-- `extractReferencedFQTables` (lib/guard.js lines 16–24), in insertion
order without duplicates. -/
def extractReferencedFQTables (s : Chars) : List Chars :=
  (fqTableScanF s.length s false).foldl addUniq []

/-- `guardSql` of src/lib/guard.js (lines 26–71). Note: no string
masking — every check reads the raw text. -/
def guardSqlLib (sql : Chars) (tables : List Chars) (maxLimit : Nat) :
    Except String Chars :=
  let s0 := trimL sql
  if s0 = [] then .error "Empty SQL."
  else
    let semiStep : Except String Chars :=
      if s0.contains ';' then
        if !endsSemiTypo s0 then .error "Multiple SQL statements are not allowed."
        else .ok (trimL (stripTrailSemis s0))
      else .ok s0
    match semiStep with
    | .error e => .error e
    | .ok s =>
      if !("SELECT".data.isPrefixOf (ucL s)) && !("WITH".data.isPrefixOf (ucL s)) then
        .error "Only SELECT (or WITH ... SELECT) statements are allowed."
      else if hasForbidden s then
        .error "Destructive/DDL SQL keywords are not allowed."
      else if hasComment s then .error "SQL comments are not allowed."
      else if hasSysSchema s then .error "Access to system schemas is not allowed."
      else
        match (extractReferencedFQTables s).find? (fun fq => !tables.contains fq) with
        | some fq => .error ("Table not allowed: " ++ String.mk fq)
        | none => .ok (ensureLimitLib s maxLimit)

/-! ## The heuristic rewriter (`tweakSqlHeuristics`, src/api/query.js lines 59–112) -/

/-- Zero-pad a digit string on the left to `n` characters. -/
def padZeros (d : Chars) (n : Nat) : Chars := List.replicate (n - d.length) '0' ++ d

/-- Decimal rendering, with exactly four decimal places, of
`(mant / 10^scale) / 100` — the JS `(n / 100).toFixed(4)`, rounding to
nearest with ties up, in exact rational arithmetic. The code computes
in IEEE doubles; the two agree on the threshold range the theorems of
this file instantiate (up to `10^6`), where `parseFloat` is exact and
the double rounding error is orders of magnitude below the four-decimal
rounding step, but diverge for thresholds near `2^53` and beyond. -/
def toFixed4Cents (mant scale : Nat) : Chars :=
  let b := 10 ^ scale
  let m := (2 * (mant * 100) + b) / (2 * b)
  natDigits (m / 10000) ++ '.' :: padZeros (natDigits (m % 10000)) 4

/-- The whitespace-and-operator middle `\s*[<>]=?\s*` of the rule-1
pattern `/(utilization\s*[<>]=?\s*)(\d+(\.\d+)?)/ig`: returns the
consumed length and the remainder. -/
def rule1Op (l1 : Chars) : Option (Nat × Chars) :=
  let sp1 := l1.takeWhile isSp
  let l2 := l1.drop sp1.length
  match l2.head? with
  | some c =>
    if c = '<' || c = '>' then
      let opLen := if l2.tail.head? = some '=' then 2 else 1
      let l3 := l2.drop opLen
      let sp2 := l3.takeWhile isSp
      some (sp1.length + opLen + sp2.length, l3.drop sp2.length)
    else none
  | none => none

/-- The numeric tail `(\d+(\.\d+)?)` of the rule-1 pattern: the integer
digits, the fractional digits (empty when there is no fraction, exactly
as the JS callback sees an `undefined` third group), and the rest. -/
def rule1Num (l4 : Chars) : Option ((Chars × Chars) × Chars) :=
  let d1 := l4.takeWhile isDigitC
  if d1 = [] then none
  else
    let l5 := l4.drop d1.length
    match l5.head? with
    | some '.' =>
      let d2 := l5.tail.takeWhile isDigitC
      if d2 ≠ [] then some ((d1, d2), l5.tail.drop d2.length)
      else some ((d1, []), l5)
    | _ => some ((d1, []), l5)

/-- The percent-to-fraction pattern
`/(utilization\s*[<>]=?\s*)(\d+(\.\d+)?)/ig` at the head of `l` (there
is no `\b`, so the caller tries every position). Returns the captured
left part (verbatim), the integer and fractional digit captures, and
the rest. -/
def rule1MatchAt (l : Chars) : Option ((Chars × Chars × Chars) × Chars) :=
  if ciSeqAt "utilization".data l 0 then
    match rule1Op (l.drop 11) with
    | some (mid, l4) =>
      match rule1Num l4 with
      | some ((d1, d2), rest) => some ((l.take (11 + mid), d1, d2), rest)
      | none => none
    | none => none
  else none

/-- One replacement of rule 1: keep the left capture and rewrite the
number when `parseFloat(num) >= 1`; otherwise keep the whole match.
The `isFinite` guard of the code is not modelled: it fails only for
captures of 309+ digits, where `parseFloat` overflows to `Infinity`;
the theorems stay below that range. -/
def rule1Repl (left d1 d2 : Chars) : Chars :=
  let mant := charsToNat (d1 ++ d2)
  let scale := d2.length
  if mant ≥ 10 ^ scale then left ++ toFixed4Cents mant scale
  else left ++ d1 ++ (if d2 = [] then [] else '.' :: d2)

def rule1F : Nat → Chars → Chars
  | 0, l => l
  | _ + 1, [] => []
  | fuel + 1, c :: t =>
    match rule1MatchAt (c :: t) with
    | some ((left, d1, d2), rest) => rule1Repl left d1 d2 ++ rule1F fuel rest
    | none => c :: rule1F fuel t

/-- Rule 1: percent thresholds on `utilization` become fractions. -/
def rule1All (s : Chars) : Chars := rule1F s.length s

/-- Generic global replace for patterns starting with a word character:
`matchAt` is attempted at every position with a `\b` on the left, `repl`
is emitted on a match and scanning resumes after it (the next left
context being the last consumed character). -/
def replaceWordAllF (matchAt : Chars → Option Chars) (repl : Chars) :
    Nat → Chars → Bool → Chars
  | 0, l, _ => l
  | _ + 1, [], _ => []
  | fuel + 1, c :: t, prevW =>
    match (if !prevW then matchAt (c :: t) else none) with
    | some rest =>
      let consumed := (c :: t).length - rest.length
      repl ++ replaceWordAllF matchAt repl fuel rest (wcAt (c :: t) (consumed - 1))
    | none => c :: replaceWordAllF matchAt repl fuel t (isWordC c)

/-- `\b<kw>\s*=\s*24\b` with the keyword at the head. -/
def eq24MatchAt (kw : Chars) (l : Chars) : Option Chars :=
  if ciSeqAt kw l 0 then
    let l1 := (l.drop kw.length).dropWhile isSp
    match l1.head? with
    | some '=' =>
      let l2 := l1.tail.dropWhile isSp
      if ciSeqAt "24".data l2 0 && !wcAt l2 2 then some (l2.drop 2) else none
    | _ => none
  else none

/-- Rule 2 (lines 81–84): under an `at least 24` question, turn
`streak_count = 24` and `hours = 24` into `>=` comparisons. -/
def rule2All (s : Chars) : Chars :=
  let s1 := replaceWordAllF (eq24MatchAt "streak_count".data)
    "streak_count >= 24".data s.length s false
  replaceWordAllF (eq24MatchAt "hours".data) "hours >= 24".data s1.length s1 false

/-- `/\bat\s+least\s+24\b/i` somewhere in the question. -/
def qAtLeast24 (q : Chars) : Bool :=
  (List.range (q.length + 1)).any (fun i =>
    bAt q i && ciSeqAt "at".data q i &&
      (let r := q.drop (i + 2)
       let sp := r.takeWhile isSp
       sp ≠ [] && ciSeqAt "least".data r sp.length &&
         (let r2 := r.drop (sp.length + 5)
          let sp2 := r2.takeWhile isSp
          sp2 ≠ [] && ciSeqAt "24".data r2 sp2.length && !wcAt r2 (sp2.length + 2))))

/-- `/\b(consecutive|streak|hours?)\b/i` somewhere in the question. -/
def qHourly (q : Chars) : Bool :=
  wordOccurs "consecutive".data q || wordOccurs "streak".data q ||
    (List.range (q.length + 1)).any (fun i =>
      bAt q i &&
        ((ciSeqAt "hours".data q i && bAt q (i + 5)) ||
          (ciSeqAt "hour".data q i && bAt q (i + 4))))

/-- `/date_trunc\s*\(\s*'hour'/i` somewhere in `s`. -/
def hasDtHour (s : Chars) : Bool :=
  (List.range (s.length + 1)).any (fun i =>
    ciSeqAt "date_trunc".data s i &&
      (let r := (s.drop (i + 10)).dropWhile isSp
       match r.head? with
       | some '(' => ciSeqAt "'hour'".data (r.tail.dropWhile isSp) 0
       | _ => false))

/-- `/from\s+public\.market_data\b/i` at position `i`; returns the match
length. -/
def fromMdAt (s : Chars) (i : Nat) : Option Nat :=
  if ciSeqAt "from".data s i then
    let r := s.drop (i + 4)
    let sp := r.takeWhile isSp
    if sp ≠ [] && ciSeqAt "public.market_data".data r sp.length &&
        bAt r (sp.length + 18) then
      some (4 + sp.length + 18)
    else none
  else none

def hasFromMd (s : Chars) : Bool :=
  (List.range (s.length + 1)).any (fun i => (fromMdAt s i).isSome)

/-- `/utilization\b/i` somewhere in `s` (no leading `\b`). -/
def hasUtil (s : Chars) : Bool :=
  (List.range (s.length + 1)).any (fun i =>
    ciSeqAt "utilization".data s i && bAt s (i + 11))

/-- The hourly pre-aggregation subquery inserted by rule 3 (lines 72–75). -/
def hourlyTemplate : Chars :=
  ("FROM (\n  SELECT date_trunc('hour', ts) AS hour, AVG(utilization) AS utilization,\n"
    ++ "         protocol, symbol\n  FROM public.market_data\n  WHERE protocol='aave'\n"
    ++ "  GROUP BY 1, protocol, symbol\n) h").data

/-- Replace the first `from\s+public\.market_data\b` by the hourly
subquery (a non-global `replace`). -/
def replaceFirstFromMd (s : Chars) : Chars :=
  match ((List.range (s.length + 1)).filterMap
      (fun i => (fromMdAt s i).map (fun len => (i, len)))).head? with
  | some (i, len) => s.take i ++ hourlyTemplate ++ s.drop (i + len)
  | none => s

/-- `\bts\b` with the keyword at the head. -/
def tsMatchAt (l : Chars) : Option Chars :=
  if ciSeqAt "ts".data l 0 && !wcAt l 2 then some (l.drop 2) else none

/-- `s.replace(/\bts\b/gi, 'hour')` (line 76). -/
def renameTs (s : Chars) : Chars :=
  replaceWordAllF tsMatchAt "hour".data s.length s false

/-- Rule 3 (lines 70–78): hourly pre-aggregation. -/
def rule3All (s : Chars) (q : Chars) : Chars :=
  if qHourly q && !hasDtHour s then
    if hasFromMd s && hasUtil s then renameTs (replaceFirstFromMd s) else s
  else s

/-! ### Rule 4: the percentile-over-window rewrite (lines 86–109) -/

/-- Consume a literal pattern case-insensitively. -/
def eatCI (pat l : Chars) : Option Chars :=
  if ciSeqAt pat l 0 then some (l.drop pat.length) else none

/-- Consume one expected character. -/
def eatCh (c : Char) (l : Chars) : Option Chars :=
  match l.head? with
  | some c' => if c' = c then some l.tail else none
  | _ => none

/-- Consume `\s+`. -/
def eatSpPlus (l : Chars) : Option Chars :=
  let sp := l.takeWhile isSp
  if sp = [] then none else some (l.drop sp.length)

/-- The lazy `[\s\S]+?\)\s+([a-z_][a-z0-9_]*)` tail of the alias-finding
regex: the earliest `)` (at least one character in) followed by
whitespace and an identifier; returns the captured identifier. -/
def lazyCloseAlias (l : Chars) : Option Chars :=
  ((List.range (l.length + 1)).filterMap (fun j =>
    if 1 ≤ j then
      match (l.drop j).head? with
      | some ')' =>
        let r := (l.drop j).tail
        let sp := r.takeWhile isSp
        if sp ≠ [] && headIs isId0 (r.drop sp.length) then
          some ((r.drop sp.length).takeWhile isIdC)
        else none
      | _ => none
    else none)).head?

/-- The alias-extraction regex of line 87:
`/from\s*\(\s*select\s*date_trunc\(\s*'hour'\s*,\s*ts\)\s+as\s+hour[\s\S]+?\)\s+([a-z_][a-z0-9_]*)/i`
attempted at position `i`; returns the captured alias. -/
def fromDtAliasAt (s : Chars) (i : Nat) : Option Chars := do
  let l ← eatCI "from".data (s.drop i)
  let l ← eatCh '(' (l.dropWhile isSp)
  let l ← eatCI "select".data (l.dropWhile isSp)
  let l ← eatCI "date_trunc(".data (l.dropWhile isSp)
  let l ← eatCI "'hour'".data (l.dropWhile isSp)
  let l ← eatCh ',' (l.dropWhile isSp)
  let l ← eatCI "ts)".data (l.dropWhile isSp)
  let l ← eatSpPlus l
  let l ← eatCI "as".data l
  let l ← eatSpPlus l
  let l ← eatCI "hour".data l
  lazyCloseAlias l

/-- `s.match(aliasRegex)?.[1] || 'h'` (line 88). -/
def baseAliasOf (s : Chars) : Chars :=
  (((List.range (s.length + 1)).filterMap (fromDtAliasAt s)).head?).getD "h".data

/-- `new RegExp('\\b' + baseAlias + '\\s*\\.\\s*symbol\\b', 'i').test(s)
|| /\bsymbol\b/i.test(s)` (line 89). -/
def hasSymbolRef (s : Chars) (al : Chars) : Bool :=
  (List.range (s.length + 1)).any (fun i =>
    bAt s i && ciSeqAt al s i &&
      (let r := (s.drop (i + al.length)).dropWhile isSp
       match r.head? with
       | some '.' =>
         let r2 := r.tail.dropWhile isSp
         ciSeqAt "symbol".data r2 0 && bAt r2 6
       | _ => false)) ||
    wordOccurs "symbol".data s

/-- `percentile_cont\s*\(\s*0\s*\.\s*?75\s*\)\s*` at the head of `l`. -/
def percEat1 (l : Chars) : Option Chars := do
  let l ← eatCI "percentile_cont".data l
  let l ← eatCh '(' (l.dropWhile isSp)
  let l ← eatCh '0' (l.dropWhile isSp)
  let l ← eatCh '.' (l.dropWhile isSp)
  let l ← eatCI "75".data (l.dropWhile isSp)
  let l ← eatCh ')' (l.dropWhile isSp)
  some (l.dropWhile isSp)

/-- `within\s+group\s*\(\s*order\s+by\s+` at the head of `l`. -/
def percEat2 (l : Chars) : Option Chars := do
  let l ← eatCI "within".data l
  let l ← eatSpPlus l
  let l ← eatCI "group".data l
  let l ← eatCh '(' (l.dropWhile isSp)
  let l ← eatCI "order".data (l.dropWhile isSp)
  let l ← eatSpPlus l
  let l ← eatCI "by".data l
  eatSpPlus l

/-- `([a-z_][a-z0-9_\.]*)\s*\)\s*over\s*\([^)]*\)` at the head of `l`;
returns the captured `orderCol` and the rest. -/
def percEat3 (l : Chars) : Option (Chars × Chars) :=
  if !headIs isId0 l then none
  else
    let oc := l.takeWhile (fun c => isIdC c || c = '.')
    let r0 := (l.drop oc.length).dropWhile isSp
    match eatCh ')' r0 with
    | none => none
    | some r1 =>
      match eatCI "over".data (r1.dropWhile isSp) with
      | none => none
      | some r2 =>
        match eatCh '(' (r2.dropWhile isSp) with
        | none => none
        | some r3 =>
          let inner := r3.takeWhile (fun c => c ≠ ')')
          match (r3.drop inner.length).head? with
          | some ')' => some (oc, r3.drop (inner.length + 1))
          | _ => none

/-- The percentile pattern of lines 91–92 at the head of `l`; returns
the captured `orderCol` and the rest. -/
def percMatchAt (l : Chars) : Option (Chars × Chars) :=
  (percEat1 l).bind (fun l1 => (percEat2 l1).bind percEat3)

/-- The replacement template of lines 96–107. -/
def percTemplate (oc al : Chars) (symRef : Bool) : Chars :=
  let colOnly := if oc.contains '.' then (oc.splitOn '.').getLastD [] else oc
  let symPred := if symRef then "AND h2.symbol = ".data ++ al ++ ".symbol".data else []
  "(\n  SELECT percentile_cont(0.75) WITHIN GROUP (ORDER BY h2.".data ++ colOnly ++
    (")\n  FROM (\n    SELECT date_trunc('hour', ts) AS hour, symbol, protocol,"
      ++ " AVG(utilization) AS util\n    FROM public.market_data\n"
      ++ "    WHERE protocol='aave'\n      AND ts >= NOW() - INTERVAL '6 months'\n"
      ++ "    GROUP BY 1,2,3\n  ) h2\n  WHERE h2.hour BETWEEN ").data ++ al ++
    ".hour - INTERVAL '30 days' AND ".data ++ al ++ ".hour\n  ".data ++ symPred ++
    "\n)".data

def rule4F (al : Chars) (symRef : Bool) : Nat → Chars → Chars
  | 0, l => l
  | _ + 1, [] => []
  | fuel + 1, c :: t =>
    match percMatchAt (c :: t) with
    | some (oc, rest) => percTemplate oc al symRef ++ rule4F al symRef fuel rest
    | none => c :: rule4F al symRef fuel t

/-- Rule 4: rewrite every `percentile_cont(0.75) … OVER (…)`. -/
def rule4All (s : Chars) : Chars :=
  let al := baseAliasOf s
  rule4F al (hasSymbolRef s al) s.length s

/-- `tweakSqlHeuristics` (src/api/query.js lines 59–112); the rules run
in source order: percent-to-fraction, hourly pre-aggregation,
at-least-24, percentile rewrite. -/
def tweakSqlHeuristics (sql question : Chars) : Chars :=
  let s := rule1All sql
  let s := rule3All s question
  let s := if qAtLeast24 question then rule2All s else s
  rule4All s

/-! ## `stripTimeFilterIfAny` (src/api/query.js lines 48–56) -/

/-- The lookahead `(?=(\)|ORDER\s+BY|LIMIT|$))` at position `p`. -/
def lookaheadAt (l : Chars) (p : Nat) : Bool :=
  match (l.drop p).head? with
  | none => true
  | some c =>
    c = ')' ||
      (ciSeqAt "order".data l p &&
        (let r := l.drop (p + 5)
         let sp := r.takeWhile isSp
         sp ≠ [] && ciSeqAt "by".data r sp.length)) ||
      ciSeqAt "limit".data l p

/-- The earliest lookahead position at or after `lo` (position `l.length`
always qualifies, for `$`). -/
def firstLookahead (l : Chars) (lo : Nat) : Nat :=
  (((List.range (l.length + 1)).filter
    (fun p => lo ≤ p && lookaheadAt l p)).head?).getD l.length

/-- `/AND\s+ts\s*>=\s*.+?(?=(\)|ORDER\s+BY|LIMIT|$))/is` at position `i`
(no word boundaries); returns the end of the match. -/
def andTsMatchAt (l : Chars) (i : Nat) : Option Nat := do
  let r ← eatCI "and".data (l.drop i)
  let r ← eatSpPlus r
  let r ← eatCI "ts".data r
  let r := r.dropWhile isSp
  let r ← eatCI ">=".data r
  let r := r.dropWhile isSp
  let cs := l.length - r.length
  if cs < l.length then some (firstLookahead l (cs + 1)) else none

/-- `/WHERE\s+ts\s*>=\s*.+?(?=(\)|ORDER\s+BY|LIMIT|$))/is` at position
`i`; returns the end of the match. -/
def whereTsMatchAt (l : Chars) (i : Nat) : Option Nat := do
  let r ← eatCI "where".data (l.drop i)
  let r ← eatSpPlus r
  let r ← eatCI "ts".data r
  let r := r.dropWhile isSp
  let r ← eatCI ">=".data r
  let r := r.dropWhile isSp
  let cs := l.length - r.length
  if cs < l.length then some (firstLookahead l (cs + 1)) else none

/-- First match of a positional matcher, as `(start, end)`. -/
def firstSpan (f : Chars → Nat → Option Nat) (l : Chars) : Option (Nat × Nat) :=
  ((List.range (l.length + 1)).filterMap
    (fun i => (f l i).map (fun e => (i, e)))).head?

/-- `stripTimeFilterIfAny`: the two (non-global) replaces, in sequence.
The first removes the first `AND ts >= …`; the second rewrites a
`WHERE ts >= …` match to `WHERE 1=1 ` when the match contains no
`\bAND\b`. -/
def stripTimeFilterIfAny (sql : Chars) : Chars :=
  let s1 :=
    match firstSpan andTsMatchAt sql with
    | some (i, e) => sql.take i ++ sql.drop e
    | none => sql
  match firstSpan whereTsMatchAt s1 with
  | some (i, e) =>
    let mtxt := (s1.drop i).take (e - i)
    if wordOccurs "and".data mtxt then s1
    else s1.take i ++ "WHERE 1=1 ".data ++ s1.drop e
  | none => s1

/-- `/ts\s*>=/i.test` (line 409). -/
def hasTsFilter (s : Chars) : Bool :=
  (List.range (s.length + 1)).any (fun i =>
    ciSeqAt "ts".data s i &&
      ciSeqAt ">=".data s (i + 2 + ((s.drop (i + 2)).takeWhile isSp).length))

/-! ## Question normalisation and the fast path (lines 29–47, 271–296) -/

/-- One alternative of an alternation, each with its own `\b…\b`, at the
head of `l` (the caller checks the leading boundary); returns the rest. -/
def altsMatchAt (alts : List Chars) (l : Chars) : Option Chars :=
  alts.findSome? (fun a =>
    if ciSeqAt a l 0 && bAt l a.length then some (l.drop a.length) else none)

/-- The expansion of `/\butlizaiton\b|\butliza?tion\b|\butl?ization\b/gi`
into its literal alternatives, in the engine's preference order. -/
def typoAlts : List Chars :=
  ["utlizaiton".data, "utlization".data, "utliztion".data,
   "utlization".data, "utization".data]

/-- The expansion of `/\bbtc-?e?t?h?\b/gi` (each optional tried
present-first), in the engine's preference order. -/
def btcAlts : List Chars :=
  ["btc-eth".data, "btc-et".data, "btc-eh".data, "btc-e".data,
   "btc-th".data, "btc-t".data, "btc-h".data, "btc-".data,
   "btceth".data, "btcet".data, "btceh".data, "btce".data,
   "btcth".data, "btct".data, "btch".data, "btc".data]

/-- `normalizeQuestion` (lines 29–35). -/
def normalizeQuestion (q : Chars) : Chars :=
  let s := replaceWordAllF (altsMatchAt typoAlts) "utilization".data q.length q false
  let s := replaceWordAllF (altsMatchAt ["utilisation".data]) "utilization".data
    s.length s false
  let s := replaceWordAllF (altsMatchAt btcAlts) "WETH".data s.length s false
  trimL s

/-- `normalizeSymbol` (lines 36–40). -/
def normalizeSymbol (sym : Chars) : Chars :=
  let s := ucL (trimL sym)
  if s = "ETH".data then "WETH".data else s

/-- The ticker alternation of `extractSymbolFromText` (line 42), in order. -/
def tickerAlts : List Chars :=
  ["USDC".data, "USDBC".data, "WETH".data, "ETH".data, "CBETH".data,
   "CBBTC".data, "GHO".data, "EURC".data, "WEETH".data]

/-- `\b(USDC|USDBC|WETH|ETH|CBETH|CBBTC|GHO|EURC|WEETH)\b` (with `i`) at
position `i`; returns the matched slice `m[0]` verbatim. -/
def symMatchAtPos (q : Chars) (i : Nat) : Option Chars :=
  if bAt q i then
    tickerAlts.findSome? (fun t =>
      if ciSeqAt t q i && bAt q (i + t.length) then some ((q.drop i).take t.length)
      else none)
  else none

/-- `extractSymbolFromText` without the final `normalizeSymbol`: the
first match `m[0]`, if any. -/
def extractSymbolRaw (q : Chars) : Option Chars :=
  ((List.range (q.length + 1)).filterMap (symMatchAtPos q)).head?

/-- `extractSymbolFromText` (lines 41–44). -/
def extractSymbolFromText (q : Chars) : Option Chars :=
  (extractSymbolRaw q).map normalizeSymbol

/-- `looksLikeLatest` (lines 45–47): `/\b(latest|most\s+recent|current)\b/i`. -/
def looksLikeLatest (q : Chars) : Bool :=
  wordOccurs "latest".data q || wordOccurs "current".data q ||
    (List.range (q.length + 1)).any (fun i =>
      bAt q i && ciSeqAt "most".data q i &&
        (let r := q.drop (i + 4)
         let sp := r.takeWhile isSp
         sp ≠ [] && ciSeqAt "recent".data r sp.length && bAt r (sp.length + 6)))

/-- The hand-written fast-path statement (lines 274–280), with the
template literal's original whitespace. -/
def latestSql (symbol : Chars) : Chars :=
  ("\n      SELECT ts, utilization, ROUND(utilization*100,2) AS utilization_pct\n"
    ++ "      FROM public.market_data\n      WHERE protocol='aave' AND symbol='").data
    ++ symbol ++ "'\n      ORDER BY ts DESC\n      LIMIT 1\n    ".data

/-! ## The retry predicate and the request coordinator (lines 239–431)

The coordinator is modelled from the point where the question has been
parsed and the liveness probe has succeeded; the HTTP method check,
authentication, body parsing, the `SELECT 1` probe and the final
summarisation call are thin collaborators that never touch the guarded
SQL. The database and the two language-model drafts are oracles: `db`
maps a statement to rows or an error message, and `plan1`/`plan2` are
the parsed `sql` fields of the two generations (an `error` covering
both an LLM failure and a non-JSON reply). -/

/-- `/percentile_(cont|disc).*OVER/i` (`.` does not match a newline). -/
def percOverMsg (msg : Chars) : Bool :=
  (List.range (msg.length + 1)).any (fun i =>
    (ciSeqAt "percentile_cont".data msg i || ciSeqAt "percentile_disc".data msg i) &&
      (List.range (msg.length + 1)).any (fun j =>
        i + 15 ≤ j && ciSeqAt "over".data msg j &&
          ((msg.drop (i + 15)).take (j - (i + 15))).all
            (fun c => c ≠ '\n' && c ≠ '\r')))

/-- The recoverable-error test of lines 359–362. -/
def needsRetry (msg : Chars) : Bool :=
  hasSeqCI "syntax error".data msg ||
    hasSeqCI "OVER is not supported for ordered-set aggregate".data msg ||
    percOverMsg msg

/-- Observable pipeline events: a guard invocation, a guarded-statement
execution (the `c2`/`c3` calls), and the empty-result fallback
execution (the `c4` call at line 412). -/
inductive Ev
  | guardEv (sql : Chars)
  | execEv (sql : Chars)
  | fexecEv (sql : Chars)
  deriving DecidableEq, Repr

/-- The response sent by the handler: a 200 with the final SQL and rows,
an error status with a message, or an exception escaping the handler
(turned into a 500 by the surrounding HTTP runtime). -/
inductive Resp (ρ : Type)
  | ok (sql : Chars) (rows : List ρ)
  | err (status : Nat) (msg : String)
  | thrown (msg : String)
  deriving DecidableEq, Repr

/-- Oracles and inputs of one request. -/
structure HIn (ρ : Type) where
  question : Chars
  db : Chars → Except String (List ρ)
  plan1 : Except String Chars
  plan2 : Except String Chars

/-- Lines 408–414: one optional fallback execution, then the 200
response (`sql: safeSql`, with the possibly-refreshed rows). The `c4`
call is not in a try/catch, so its failure escapes the handler. -/
def fallbackPhase {ρ : Type} (i : HIn ρ) (trace : List Ev) (safe : Chars)
    (rows : List ρ) : List Ev × Resp ρ :=
  if rows.length = 0 && hasTsFilter safe then
    match i.db (stripTimeFilterIfAny safe) with
    | .ok rows2 => (trace ++ [.fexecEv (stripTimeFilterIfAny safe)], .ok safe rows2)
    | .error e => (trace ++ [.fexecEv (stripTimeFilterIfAny safe)], .thrown e)
  else (trace, .ok safe rows)

/-- The fast-path branch of the handler (lines 271–296): `latestSql` is
executed directly. -/
def fastPath {ρ : Type} (i : HIn ρ) (q : Chars) : List Ev × Resp ρ :=
  match i.db (latestSql (normalizeSymbol
      (((extractSymbolRaw q).map normalizeSymbol).getD "USDC".data))) with
  | .ok rows =>
    ([.execEv (latestSql (normalizeSymbol
        (((extractSymbolRaw q).map normalizeSymbol).getD "USDC".data)))],
      .ok (trimL (latestSql (normalizeSymbol
        (((extractSymbolRaw q).map normalizeSymbol).getD "USDC".data)))) rows)
  | .error e =>
    ([.execEv (latestSql (normalizeSymbol
        (((extractSymbolRaw q).map normalizeSymbol).getD "USDC".data)))],
      .err 500 ("SQL error: " ++ e))

/-- The retry branch (lines 366–406): a second draft is generated,
rewritten, guarded and executed; its failure is not caught. -/
def retryPhase {ρ : Type} (i : HIn ρ) (tables : List Chars)
    (cols : List (Chars × List Chars)) (q sql : Chars) (safe : Chars) :
    List Ev × Resp ρ :=
  match i.plan2 with
  | .error e2 => ([.guardEv sql, .execEv safe], .err 500 e2)
  | .ok sql2 =>
    match guardSqlApi (tweakSqlHeuristics sql2 q) tables cols with
    | .error e =>
      ([.guardEv sql, .execEv safe, .guardEv (tweakSqlHeuristics sql2 q)],
        .err 400 e)
    | .ok safe2 =>
      match i.db safe2 with
      | .error e3 =>
        ([.guardEv sql, .execEv safe, .guardEv (tweakSqlHeuristics sql2 q),
          .execEv safe2], .thrown e3)
      | .ok rows =>
        fallbackPhase i
          [.guardEv sql, .execEv safe, .guardEv (tweakSqlHeuristics sql2 q),
            .execEv safe2] safe2 rows

/-- The planner branch (lines 298–414). -/
def plannerPath {ρ : Type} (i : HIn ρ) (tables : List Chars)
    (cols : List (Chars × List Chars)) (q : Chars) : List Ev × Resp ρ :=
  match i.plan1 with
  | .error e => ([], .err 500 e)
  | .ok sql0 =>
    if !startsSelectWith sql0 then ([], .err 400 "Only SELECT/CTE allowed")
    else
      match guardSqlApi (tweakSqlHeuristics sql0 q) tables cols with
      | .error e => ([.guardEv (tweakSqlHeuristics sql0 q)], .err 400 e)
      | .ok safe =>
        match i.db safe with
        | .ok rows =>
          fallbackPhase i [.guardEv (tweakSqlHeuristics sql0 q), .execEv safe]
            safe rows
        | .error msg =>
          if !needsRetry msg.data then
            ([.guardEv (tweakSqlHeuristics sql0 q), .execEv safe],
              .err 500 ("SQL error: " ++ msg))
          else retryPhase i tables cols q (tweakSqlHeuristics sql0 q) safe

/-- The request coordinator (`handler`), from the fast-path dispatch on. -/
def handlerRun {ρ : Type} (i : HIn ρ) (tables : List Chars)
    (cols : List (Chars × List Chars)) : List Ev × Resp ρ :=
  if looksLikeLatest (normalizeQuestion i.question) then
    fastPath i (normalizeQuestion i.question)
  else plannerPath i tables cols (normalizeQuestion i.question)

/-! ## Concrete schema instance

`fetchSchema` (lines 206–236) restricts the allow-list to the single
table `market_data`; its columns are the ones of the schema document at
lines 227–228 (`protocol, symbol, supply, borrows, available,
supply_apy, borrow_apy, utilization, ts`). -/

def mdTables : List Chars := ["market_data".data]

def mdCols : List (Chars × List Chars) :=
  [("market_data".data,
    ["protocol".data, "symbol".data, "supply".data, "borrows".data,
     "available".data, "supply_apy".data, "borrow_apy".data,
     "utilization".data, "ts".data])]

/-- Right-trim of whitespace (the tail half of JS `trim`). -/
def rstripSp (l : Chars) : Chars := (l.reverse.dropWhile isSp).reverse

/-- What statement preparation does to the text after the closing quote
of a literal: right-trim, strip one trailing semicolon, right-trim. -/
def prepSuf (suf : Chars) : Chars :=
  let r := rstripSp suf
  if r.getLast? = some ';' then rstripSp r.dropLast else r

/-- Text in which every single-quoted literal is complete (valid content,
closed, and followed by a character other than a quote, so that the
greedy close of the masking regex cannot extend past it). -/
inductive NeutralPre : Chars → Prop
  | nil : NeutralPre []
  | ch {x : Char} {t : Chars} (hx : x ≠ '\'') (h : NeutralPre t) :
      NeutralPre (x :: t)
  | lit {body : Chars} {y : Char} {t : Chars}
      (hb : litContentOk body = true) (hy : y ≠ '\'')
      (h : NeutralPre (y :: t)) :
      NeutralPre ('\'' :: body ++ '\'' :: y :: t)

deriving instance DecidableEq for Except

/-! # Theorems -/

/-! ## Character casing -/

theorem toNat_ofNat_valid {n : Nat} (h : n < 55296) : (Char.ofNat n).toNat = n := by
  rw [Char.ofNat, dif_pos (Or.inl h)]
  simp [Char.ofNatAux, Char.toNat, UInt32.toNat]

theorem char_toNat_inj {c d : Char} (h : c.toNat = d.toNat) : c = d := by
  apply Char.eq_of_val_eq
  exact UInt32.toNat.inj h

/-- Characters with equal lower-casings have equal upper-casings. -/
theorem lower_congr_upper {c d : Char} (h : c.toLower = d.toLower) :
    c.toUpper = d.toUpper := by
  unfold Char.toLower at h
  simp only at h
  split at h <;> split at h
  case isTrue.isTrue h1 h2 =>
    have := congrArg Char.toNat h
    rw [toNat_ofNat_valid (by omega), toNat_ofNat_valid (by omega)] at this
    have : c = d := char_toNat_inj (by omega)
    rw [this]
  case isTrue.isFalse h1 h2 =>
    have hnd := congrArg Char.toNat h
    rw [toNat_ofNat_valid (by omega)] at hnd
    unfold Char.toUpper
    simp only
    rw [if_neg (by omega), if_pos (by omega)]
    have : d.toNat - 32 = c.toNat := by omega
    rw [this, Char.ofNat_toNat]
  case isFalse.isTrue h1 h2 =>
    have hnd := congrArg Char.toNat h.symm
    rw [toNat_ofNat_valid (by omega)] at hnd
    unfold Char.toUpper
    simp only
    rw [if_pos (by omega), if_neg (by omega)]
    have : c.toNat - 32 = d.toNat := by omega
    rw [this, Char.ofNat_toNat]
  case isFalse.isFalse h1 h2 => rw [h]

theorem ucL_congr {w t : Chars} (h : lcL w = lcL t) : ucL w = ucL t := by
  induction w generalizing t with
  | nil => cases t <;> simp_all [lcL, ucL]
  | cons c w ih =>
    cases t with
    | nil => simp [lcL] at h
    | cons d t =>
      simp only [lcL, List.map_cons, List.cons.injEq] at h
      simp only [ucL, List.map_cons, List.cons.injEq]
      exact ⟨lower_congr_upper h.1, ih h.2⟩

/-! ## C10: the fast-path symbol -/

/-- The eight symbols the fast path can interpolate. -/
def fastSymbols : List Chars :=
  ["USDC".data, "USDBC".data, "WETH".data, "CBETH".data, "CBBTC".data,
   "GHO".data, "EURC".data, "WEETH".data]

/-- Any slice returned by the ticker matcher agrees, modulo case, with
one of the nine alternation tickers. -/
theorem extractRaw_ci {q w : Chars} (h : extractSymbolRaw q = some w) :
    ∃ t ∈ tickerAlts, lcL w = lcL t := by
  have hmem : w ∈ (List.range (q.length + 1)).filterMap (symMatchAtPos q) := by
    unfold extractSymbolRaw at h
    exact List.mem_of_mem_head? (Option.mem_def.mpr h)
  obtain ⟨i, _, hi⟩ := List.mem_filterMap.mp hmem
  unfold symMatchAtPos at hi
  split at hi
  · obtain ⟨t, ht, hsome⟩ := List.exists_of_findSome?_eq_some hi
    refine ⟨t, ht, ?_⟩
    split at hsome
    next hcond =>
      have hci : ciSeqAt t q i = true := by
        rw [Bool.and_eq_true] at hcond
        exact hcond.1
      have hpre' : lcL t <+: lcL (q.drop i) :=
        List.isPrefixOf_iff_prefix.mp hci
      have hw : w = (q.drop i).take t.length := (Option.some.injEq _ _).mp hsome |>.symm
      have hlen : (lcL t).length = t.length := by simp [lcL]
      calc lcL w = lcL ((q.drop i).take t.length) := by rw [hw]
        _ = (lcL (q.drop i)).take t.length := by simp [lcL, List.map_take]
        _ = (lcL (q.drop i)).take (lcL t).length := by rw [hlen]
        _ = lcL t := (List.prefix_iff_eq_take.mp hpre').symm
    next => exact absurd hsome (by simp)
  · exact absurd hi (by simp)

/-- Lists without whitespace are fixed by `trim`. -/
theorem trimL_eq_self_of_no_space {l : Chars} (h : ∀ c ∈ l, isSp c = false) :
    trimL l = l := by
  unfold trimL
  have h1 : l.dropWhile isSp = l := by
    cases l with
    | nil => rfl
    | cons c t => rw [List.dropWhile_cons_of_neg (by simp [h c (by simp)])]
  rw [h1]
  have h2 : l.reverse.dropWhile isSp = l.reverse := by
    cases hr : l.reverse with
    | nil => rfl
    | cons c t =>
      rw [List.dropWhile_cons_of_neg]
      have : c ∈ l := by
        rw [← List.mem_reverse, hr]; exact List.mem_cons_self _ _
      simp [h c this]
  rw [h2, List.reverse_reverse]

/-- A character whose lower-casing is a lower-case letter is not whitespace. -/
theorem not_space_of_lower {c : Char} (h : c.toLower.isLower = true) :
    isSp c = false := by
  by_contra hc
  simp only [Bool.not_eq_false] at hc
  have hcw : c = ' ' ∨ c = '\t' ∨ c = '\r' ∨ c = '\n' := by
    simp only [isSp, Char.isWhitespace, Bool.or_eq_true, decide_eq_true_eq] at hc
    tauto
  rcases hcw with rfl | rfl | rfl | rfl <;> exact absurd h (by decide)

/-- Case-agreement with a list of lower-casable letters excludes whitespace. -/
theorem no_space_of_lcL_eq : ∀ {t w : Chars}, lcL w = lcL t →
    (∀ d ∈ t, d.toLower.isLower = true) → ∀ c ∈ w, isSp c = false := by
  intro t w
  induction w generalizing t with
  | nil => intro _ _ c hc; cases hc
  | cons c w ih =>
    intro h hd e he
    cases t with
    | nil => simp [lcL] at h
    | cons d t =>
      simp only [lcL, List.map_cons, List.cons.injEq] at h
      rcases List.mem_cons.mp he with rfl | hmem
      · exact not_space_of_lower (by rw [h.1]; exact hd d (List.mem_cons_self _ _))
      · exact ih h.2 (fun x hx => hd x (List.mem_cons_of_mem _ hx)) e hmem

/-- C10 core: the symbol the fast path interpolates is always one of the
eight fixed tickers. -/
theorem fastSymbol_mem (q : Chars) :
    normalizeSymbol (((extractSymbolRaw q).map normalizeSymbol).getD "USDC".data)
      ∈ fastSymbols := by
  cases hx : extractSymbolRaw q with
  | none => simp only [Option.map_none', Option.getD_none]; decide
  | some w =>
    obtain ⟨t, ht, hlc⟩ := extractRaw_ci hx
    have hup : ucL w = ucL t := ucL_congr hlc
    have htrim : trimL w = w :=
      trimL_eq_self_of_no_space (no_space_of_lcL_eq hlc (by fin_cases ht <;> decide))
    simp only [Option.map_some', Option.getD_some]
    have h1 : normalizeSymbol w = if ucL t = "ETH".data then "WETH".data else ucL t := by
      unfold normalizeSymbol
      rw [htrim, hup]
    fin_cases ht <;> rw [h1] <;> decide

/-- An `Except` result is an error. -/
def isErrE {α β : Type} : Except α β → Bool
  | .error _ => true
  | .ok _ => false

def isGuardEv : Ev → Bool
  | .guardEv _ => true
  | _ => false

def isFexecEv : Ev → Bool
  | .fexecEv _ => true
  | _ => false

def isExecEv : Ev → Bool
  | .execEv _ => true
  | _ => false

/-- Whatever the database answers, the fast-path trace is the single
direct execution of `latestSql`. -/
theorem fastPath_trace {ρ : Type} (i : HIn ρ) (q : Chars) :
    (fastPath i q).1 = [Ev.execEv (latestSql (normalizeSymbol
      (((extractSymbolRaw q).map normalizeSymbol).getD "USDC".data)))] := by
  unfold fastPath
  cases hdb : i.db (latestSql (normalizeSymbol
      (((extractSymbolRaw q).map normalizeSymbol).getD "USDC".data))) <;> simp [hdb]

/-- C10. For every input question, the symbol interpolated into the
hand-written fast-path SQL is one of the eight fixed uppercase tickers
(`ETH` having been mapped to `WETH`, `USDC` being the default), so the
fast path always executes `latestSql` of one of those symbols and no
other fragment of the question reaches the statement. -/
theorem c10_fast_path_symbol_fixed {ρ : Type} (i : HIn ρ) (T : List Chars)
    (C : List (Chars × List Chars))
    (h : looksLikeLatest (normalizeQuestion i.question) = true) :
    ∃ s ∈ fastSymbols, (handlerRun i T C).1 = [Ev.execEv (latestSql s)] := by
  refine ⟨_, fastSymbol_mem (normalizeQuestion i.question), ?_⟩
  unfold handlerRun
  rw [if_pos h]
  exact fastPath_trace i _

/-- Witness for C10 at a concrete question and oracles. -/
theorem c10_fast_path_symbol_fixed_witness :
    ∃ s ∈ fastSymbols,
      (handlerRun (ρ := Unit)
        ⟨"what is the latest cbeth utilization".data,
          fun _ => .ok [], .ok [], .ok []⟩ mdTables mdCols).1 =
        [Ev.execEv (latestSql s)] :=
  c10_fast_path_symbol_fixed _ mdTables mdCols (by decide)

/-! ## C2: forbidden keywords outside string literals -/

/-- C2. (1) Any SQL whose masked text (string literals blanked) contains
one of the twelve write/DDL/admin keywords at word boundaries is
rejected by the guard, whatever the allow-lists. (2) A SQL whose only
dangerous tokens (`;`, `--`, `DROP`) sit inside the string literal
`'; DROP TABLE t; --'` is accepted. -/
theorem c2_forbidden_keywords :
    (∀ (sql : Chars) (T : List Chars) (C : List (Chars × List Chars)) (kw : Chars),
      kw ∈ forbiddenKws → wordOccurs kw (maskScan (prepSql sql)) = true →
      isErrE (guardDecision sql T C) = true) ∧
    guardDecision
      "SELECT ts FROM public.market_data WHERE symbol = '; DROP TABLE t; --' ORDER BY ts DESC LIMIT 5".data
      mdTables mdCols = .ok () := by
  constructor
  · intro sql T C kw hk hocc
    have hforb : hasForbidden (maskScan (prepSql sql)) = true :=
      List.any_eq_true.mpr ⟨kw, hk, hocc⟩
    unfold guardDecision guardChecks
    by_cases h1 : startsSelectWith (maskScan (prepSql sql)) = true
    · by_cases h2 : ';' ∈ maskScan (prepSql sql)
      · simp [h1, h2, isErrE]
      · simp [h1, h2, hforb, isErrE]
    · simp [h1, isErrE]
  · decide

/-- Witness for C2: `DROP` outside any literal is rejected. -/
theorem c2_forbidden_keywords_witness :
    isErrE (guardDecision "SELECT ts FROM public.market_data WHERE 1=1 OR drop".data
      mdTables mdCols) = true :=
  c2_forbidden_keywords.1 _ mdTables mdCols "drop".data (by decide) (by decide)

/-! ## C5: the fast path and the guard -/

/-- The hand-written latest query is accepted by the guard for each of
the eight possible symbols. -/
theorem latestSql_guard_accepts :
    ∀ s ∈ fastSymbols, isErrE (guardSqlApi (latestSql s) mdTables mdCols) = false := by
  intro s hs
  fin_cases hs <;> decide

/-- C5 counterexample: on a concrete `latest` question the handler
executes the fast-path statement directly — the trace contains no guard
event before (or after) the execution, so the statement does not pass
through the Guard. -/
theorem c5_counterexample :
    (handlerRun (ρ := Unit)
      ⟨"latest USDC utilization".data, fun _ => .ok [], .ok [], .ok []⟩
      mdTables mdCols).1 = [Ev.execEv (latestSql "USDC".data)] ∧
    ((handlerRun (ρ := Unit)
      ⟨"latest USDC utilization".data, fun _ => .ok [], .ok [], .ok []⟩
      mdTables mdCols).1.any isGuardEv) = false := by
  refine ⟨by decide, by decide⟩

/-- C5 amended. The fast path bypasses the Guard: whenever the (normalised)
question matches the `latest` pattern, the handler's only pipeline event
is the direct execution of `latestSql` — no guard invocation occurs.
The statement is nevertheless hand-written to pass the Guard: `guardSqlApi`
accepts it for every symbol the fast path can produce. -/
theorem c5_fast_path_bypasses_guard {ρ : Type} (i : HIn ρ) (T : List Chars)
    (C : List (Chars × List Chars))
    (h : looksLikeLatest (normalizeQuestion i.question) = true) :
    ∃ s ∈ fastSymbols,
      (handlerRun i T C).1 = [Ev.execEv (latestSql s)] ∧
      ((handlerRun i T C).1.any isGuardEv) = false ∧
      isErrE (guardSqlApi (latestSql s) mdTables mdCols) = false := by
  refine ⟨_, fastSymbol_mem (normalizeQuestion i.question), ?_⟩
  have htr : (handlerRun i T C).1 = [Ev.execEv (latestSql (normalizeSymbol
      (((extractSymbolRaw (normalizeQuestion i.question)).map normalizeSymbol).getD
        "USDC".data)))] := by
    unfold handlerRun
    rw [if_pos h]
    exact fastPath_trace i _
  refine ⟨htr, ?_, latestSql_guard_accepts _ (fastSymbol_mem _)⟩
  rw [htr]
  simp [isGuardEv]

/-- Witness for C5 amended at a concrete question. -/
theorem c5_fast_path_bypasses_guard_witness :
    ∃ s ∈ fastSymbols,
      (handlerRun (ρ := Unit)
        ⟨"current GHO utilization".data, fun _ => .ok [], .ok [], .ok []⟩
        mdTables mdCols).1 = [Ev.execEv (latestSql s)] ∧
      ((handlerRun (ρ := Unit)
        ⟨"current GHO utilization".data, fun _ => .ok [], .ok [], .ok []⟩
        mdTables mdCols).1.any isGuardEv) = false ∧
      isErrE (guardSqlApi (latestSql s) mdTables mdCols) = false :=
  c5_fast_path_bypasses_guard _ mdTables mdCols (by decide)

/-! ## C6: the retry policy -/

/-- C6. In the planner branch (non-latest question, parsed first draft
`sql0` beginning with SELECT/WITH, guard acceptance `safe`, first
execution failing with `msg`):
1. when `msg` matches none of the three recoverable classes, the request
   fails with 500 after exactly one execution — no retry;
2. when it does match, exactly one retry happens: a second draft is
   guarded and executed, and a still-failing second execution surfaces
   as an uncaught error (a 500 in the surrounding runtime) after exactly
   two executions — no third attempt;
3. a successful second execution proceeds to the normal
   empty-result-fallback phase. -/
theorem c6_retry_policy {ρ : Type} (i : HIn ρ) (T : List Chars)
    (C : List (Chars × List Chars)) (sql0 safe : Chars) (msg : String)
    (hm : looksLikeLatest (normalizeQuestion i.question) = false)
    (hp : i.plan1 = .ok sql0)
    (hsel : startsSelectWith sql0 = true)
    (hg : guardSqlApi (tweakSqlHeuristics sql0 (normalizeQuestion i.question)) T C =
      .ok safe)
    (hdb : i.db safe = .error msg) :
    (needsRetry msg.data = false →
      handlerRun i T C =
        ([.guardEv (tweakSqlHeuristics sql0 (normalizeQuestion i.question)),
          .execEv safe], .err 500 ("SQL error: " ++ msg))) ∧
    (needsRetry msg.data = true → ∀ sql2 safe2 (e3 : String),
      i.plan2 = .ok sql2 →
      guardSqlApi (tweakSqlHeuristics sql2 (normalizeQuestion i.question)) T C =
        .ok safe2 →
      i.db safe2 = .error e3 →
      handlerRun i T C =
        ([.guardEv (tweakSqlHeuristics sql0 (normalizeQuestion i.question)),
          .execEv safe,
          .guardEv (tweakSqlHeuristics sql2 (normalizeQuestion i.question)),
          .execEv safe2], .thrown e3)) ∧
    (needsRetry msg.data = true → ∀ sql2 safe2 rows,
      i.plan2 = .ok sql2 →
      guardSqlApi (tweakSqlHeuristics sql2 (normalizeQuestion i.question)) T C =
        .ok safe2 →
      i.db safe2 = .ok rows →
      handlerRun i T C =
        fallbackPhase i
          [.guardEv (tweakSqlHeuristics sql0 (normalizeQuestion i.question)),
            .execEv safe,
            .guardEv (tweakSqlHeuristics sql2 (normalizeQuestion i.question)),
            .execEv safe2] safe2 rows) := by
  refine ⟨?_, ?_, ?_⟩
  · intro hnr
    unfold handlerRun plannerPath
    rw [if_neg (by simp [hm]), hp]
    simp only [hsel, hg, hdb, hnr, Bool.not_true, Bool.false_eq_true, if_false,
      Bool.not_false, if_true]
  · intro hnr sql2 safe2 e3 hp2 hg2 hdb2
    unfold handlerRun plannerPath retryPhase
    rw [if_neg (by simp [hm]), hp]
    simp only [hsel, hg, hdb, hnr, hp2, hg2, hdb2, Bool.not_true,
      Bool.false_eq_true, if_false, Bool.not_false, if_true]
  · intro hnr sql2 safe2 rows hp2 hg2 hdb2
    unfold handlerRun plannerPath retryPhase
    rw [if_neg (by simp [hm]), hp]
    simp only [hsel, hg, hdb, hnr, hp2, hg2, hdb2, Bool.not_true,
      Bool.false_eq_true, if_false, Bool.not_false, if_true]

/-- Witness for C6: a concrete request whose first and second executions
both fail with a recoverable syntax error ends as a thrown error after
exactly the two executions. -/
theorem c6_retry_policy_witness :
    handlerRun (ρ := Unit)
      ⟨"average utilisation please".data,
        fun _ => .error "syntax error at or near X",
        .ok "SELECT ts FROM public.market_data".data,
        .ok "SELECT utilization FROM public.market_data".data⟩
      mdTables mdCols =
      ([.guardEv (tweakSqlHeuristics "SELECT ts FROM public.market_data".data
          (normalizeQuestion "average utilisation please".data)),
        .execEv "SELECT ts FROM public.market_data\nLIMIT 500".data,
        .guardEv (tweakSqlHeuristics "SELECT utilization FROM public.market_data".data
          (normalizeQuestion "average utilisation please".data)),
        .execEv "SELECT utilization FROM public.market_data\nLIMIT 500".data],
        .thrown "syntax error at or near X") :=
  (c6_retry_policy _ mdTables mdCols
    "SELECT ts FROM public.market_data".data
    "SELECT ts FROM public.market_data\nLIMIT 500".data
    "syntax error at or near X"
    (by decide) rfl (by decide) (by decide) rfl).2.1
    (by decide)
    "SELECT utilization FROM public.market_data".data
    "SELECT utilization FROM public.market_data\nLIMIT 500".data
    "syntax error at or near X" rfl (by decide) rfl

/-! ## C9: the empty-result fallback -/

theorem fallbackPhase_fexec_le {ρ : Type} (i : HIn ρ) (tr : List Ev) (safe : Chars)
    (rows : List ρ) (h : tr.countP isFexecEv = 0) :
    ((fallbackPhase i tr safe rows).1.countP isFexecEv) ≤ 1 := by
  unfold fallbackPhase
  split
  · cases hdb : i.db (stripTimeFilterIfAny safe) <;>
      simp [hdb, List.countP_append, h, List.countP_cons, isFexecEv]
  · simp [h]

/-- C9 counterexample: on `WHERE ts >= d1 AND ts >= d2` the code first
removes the `AND ts >= d2` filter and then ALSO rewrites the remaining
`WHERE ts >= d1` to `WHERE 1=1 ` — the result matches neither of the two
single-rule outcomes the claim describes (removal alone would give
`… WHERE ts >= d1 `, and the `WHERE`-rewrite alone is inapplicable since
the original `WHERE ts >= …` match contains an `AND`). -/
theorem c9_counterexample :
    stripTimeFilterIfAny "SELECT a FROM t WHERE ts >= d1 AND ts >= d2".data =
      "SELECT a FROM t WHERE 1=1 ".data ∧
    "SELECT a FROM t WHERE 1=1 ".data ≠ "SELECT a FROM t WHERE ts >= d1 ".data ∧
    "SELECT a FROM t WHERE 1=1 ".data ≠
      "SELECT a FROM t WHERE ts >= d1 AND ts >= d2".data := by
  refine ⟨by decide, by decide, by decide⟩

/-- C9 amended. (1) Across every branch of the handler, at most one
fallback execution happens per request. (2) In the planner branch with a
successful first execution, a fallback execution happens iff the rows
are empty and the statement matches `/ts\s*>=/i`. (3) The transformation
applies the two replacements in sequence — first the removal of the
first `AND ts >= …` (up to `)`/`ORDER BY`/`LIMIT`/end), then the
rewrite of a remaining `WHERE ts >= …` match without `AND` to
`WHERE 1=1 ` — as the three concrete cases exhibit (removal alone,
rewrite alone, and both together). -/
theorem c9_empty_result_fallback :
    (∀ {ρ : Type} (i : HIn ρ) (T : List Chars) (C : List (Chars × List Chars)),
      ((handlerRun i T C).1.countP isFexecEv) ≤ 1) ∧
    (∀ {ρ : Type} (i : HIn ρ) (T : List Chars) (C : List (Chars × List Chars))
      (sql0 safe : Chars) (rows : List ρ),
      looksLikeLatest (normalizeQuestion i.question) = false →
      i.plan1 = .ok sql0 →
      startsSelectWith sql0 = true →
      guardSqlApi (tweakSqlHeuristics sql0 (normalizeQuestion i.question)) T C =
        .ok safe →
      i.db safe = .ok rows →
      (((handlerRun i T C).1.any isFexecEv) = true ↔
        (rows.length = 0 ∧ hasTsFilter safe = true))) ∧
    stripTimeFilterIfAny "SELECT a FROM t WHERE x=1 AND ts >= Y LIMIT 5".data =
      "SELECT a FROM t WHERE x=1 LIMIT 5".data ∧
    stripTimeFilterIfAny "SELECT a FROM t WHERE ts >= Y ORDER BY ts".data =
      "SELECT a FROM t WHERE 1=1 ORDER BY ts".data ∧
    stripTimeFilterIfAny "SELECT a FROM t WHERE ts >= d1 AND ts >= d2".data =
      "SELECT a FROM t WHERE 1=1 ".data := by
  refine ⟨?_, ?_, by decide, by decide, by decide⟩
  · intro ρ i T C
    unfold handlerRun
    split
    · rw [fastPath_trace]
      simp [isFexecEv]
    · unfold plannerPath
      split
      · simp
      · split
        · simp
        · split
          · simp [isFexecEv, List.countP_cons]
          · split
            · apply fallbackPhase_fexec_le
              simp [isFexecEv, List.countP_cons]
            · split
              · simp [isFexecEv, List.countP_cons]
              · unfold retryPhase
                split
                · simp [isFexecEv, List.countP_cons]
                · split
                  · simp [isFexecEv, List.countP_cons]
                  · split
                    · simp [isFexecEv, List.countP_cons]
                    · apply fallbackPhase_fexec_le
                      simp [isFexecEv, List.countP_cons]
  · intro ρ i T C sql0 safe rows hm hp hsel hg hdb
    have hrun : handlerRun i T C =
        fallbackPhase i
          [.guardEv (tweakSqlHeuristics sql0 (normalizeQuestion i.question)),
            .execEv safe] safe rows := by
      unfold handlerRun plannerPath
      rw [if_neg (by simp [hm]), hp]
      simp only [hsel, hg, hdb, Bool.not_true, Bool.false_eq_true, if_false,
        Bool.not_false, if_true]
    rw [hrun]
    unfold fallbackPhase
    by_cases hc : (decide (rows.length = 0) && hasTsFilter safe) = true
    · rw [if_pos hc]
      have hiff : rows.length = 0 ∧ hasTsFilter safe = true := by
        simpa [Bool.and_eq_true, decide_eq_true_eq] using hc
      cases hdb2 : i.db (stripTimeFilterIfAny safe) <;>
        simp [List.any_append, isFexecEv, hiff]
    · rw [if_neg hc]
      have hiff : ¬(rows.length = 0 ∧ hasTsFilter safe = true) := by
        simpa [Bool.and_eq_true, decide_eq_true_eq] using hc
      simp only [isFexecEv, List.any_cons, List.any_nil, Bool.or_false,
        Bool.false_eq_true, false_iff]
      intro hcon
      exact hiff ⟨hcon.1, hcon.2⟩

/-- Witness for C9 amended: a concrete empty result with a `ts >=`
filter triggers the (single) fallback execution. -/
theorem c9_empty_result_fallback_witness :
    ((handlerRun (ρ := Unit)
      ⟨"average utilisation of weeth".data, fun _ => .ok [],
        .ok "SELECT ts FROM public.market_data WHERE ts >= d1".data,
        .ok "x".data⟩ mdTables mdCols).1.any isFexecEv) = true :=
  (c9_empty_result_fallback.2.1 _ mdTables mdCols
    "SELECT ts FROM public.market_data WHERE ts >= d1".data
    "SELECT ts FROM public.market_data WHERE ts >= d1\nLIMIT 500".data
    [] (by decide) rfl (by decide) (by decide) rfl).mpr ⟨rfl, by decide⟩

/-! ## C3: fully-qualified column references -/

theorem findSome?_append_of_none {α β : Type} (f : α → Option β) :
    ∀ (pre l : List α), (∀ r ∈ pre, f r = none) →
      (pre ++ l).findSome? f = l.findSome? f := by
  intro pre
  induction pre with
  | nil => simp
  | cons a pre ih =>
    intro l h
    rw [List.cons_append, List.findSome?_cons_of_isNone _ (by simp [h a (by simp)]),
      ih l (fun r hr => h r (List.mem_cons_of_mem _ hr))]

/-- C3 counterexample: `SELECT market_data.bogus FROM secret_tbl`
contains the reference `market_data.bogus` with `bogus` not an allowed
column of the declared table `market_data` (and `market_data` is no
alias), yet the guard fails with `Table not allowed`, not with a
`Column not allowed` error naming `market_data.bogus`. -/
theorem c3_counterexample :
    fqColScan (maskScan (prepSql "SELECT market_data.bogus FROM secret_tbl".data)) =
      ["market_data.bogus".data] ∧
    colCheckOne
      (guardAliases (maskScan (prepSql "SELECT market_data.bogus FROM secret_tbl".data)))
      mdCols "market_data.bogus".data = some ("market_data".data, "bogus".data) ∧
    guardDecision "SELECT market_data.bogus FROM secret_tbl".data mdTables mdCols =
      .error "Table not allowed: secret_tbl" := by
  refine ⟨by decide, by decide, by decide⟩

/-- C3 amended. (1) Whenever the guard's own reference extraction yields
a reference that resolves to a pair `(t, c)` with `c` outside `t`'s
column allow-list, the statement is rejected (with some error). (2) When
additionally the prefix, single-statement, keyword, comment and table
checks all pass and the offending reference is the first one, the error
is exactly `Column not allowed: t.c`. -/
theorem c3_column_not_allowed (sql : Chars) (T : List Chars)
    (C : List (Chars × List Chars)) :
    (∀ ref t c,
      ref ∈ fqColScan (maskScan (prepSql sql)) →
      colCheckOne (guardAliases (maskScan (prepSql sql))) C ref = some (t, c) →
      isErrE (guardDecision sql T C) = true) ∧
    (∀ pre ref rest t c,
      startsSelectWith (maskScan (prepSql sql)) = true →
      (maskScan (prepSql sql)).contains ';' = false →
      hasForbidden (maskScan (prepSql sql)) = false →
      hasComment (maskScan (prepSql sql)) = false →
      tableOffender (maskScan (prepSql sql)) T = none →
      fqColScan (maskScan (prepSql sql)) = pre ++ ref :: rest →
      (∀ r ∈ pre,
        colCheckOne (guardAliases (maskScan (prepSql sql))) C r = none) →
      colCheckOne (guardAliases (maskScan (prepSql sql))) C ref = some (t, c) →
      guardDecision sql T C =
        .error ("Column not allowed: " ++ String.mk t ++ "." ++ String.mk c)) := by
  constructor
  · intro ref t c href hcol
    unfold guardDecision guardChecks
    by_cases h1 : startsSelectWith (maskScan (prepSql sql)) = true
    · by_cases h2 : (maskScan (prepSql sql)).contains ';' = true
      · rw [if_neg (by simp [h1]), if_pos h2]; rfl
      · by_cases h3 : hasForbidden (maskScan (prepSql sql)) = true
        · rw [if_neg (by simp [h1]), if_neg h2, if_pos h3]; rfl
        · by_cases h4 : hasComment (maskScan (prepSql sql)) = true
          · rw [if_neg (by simp [h1]), if_neg h2, if_neg h3, if_pos h4]
            rfl
          · rw [if_neg (by simp [h1]), if_neg h2, if_neg h3, if_neg h4]
            cases hft : tableOffender (maskScan (prepSql sql)) T with
            | some u => rfl
            | none =>
              cases hfs : colOffender (maskScan (prepSql sql)) C with
              | some pr => rfl
              | none =>
                exfalso
                have := List.findSome?_eq_none_iff.mp hfs ref href
                rw [this] at hcol
                cases hcol
    · rw [if_pos (by simp [h1])]; rfl
  · intro pre ref rest t c h1 h2 h3 h4 h5 hsplit hpre hcol
    unfold guardDecision guardChecks
    rw [if_neg (by simp [h1]), if_neg (by simpa using h2), if_neg (by simp [h3]),
      if_neg (by simp [h4]), h5]
    have hfs : colOffender (maskScan (prepSql sql)) C = some (t, c) := by
      unfold colOffender
      rw [hsplit, findSome?_append_of_none _ pre _ hpre,
        List.findSome?_cons_of_isSome _ (by simp [hcol]), hcol]
    rw [hfs]

/-! ## C4: LIMIT normalisation -/

/-- Appending `\nLIMIT 500` always produces a limit token. -/
theorem hasLimitTok_append (x : Chars) :
    hasLimitTok (x ++ '\n' :: "LIMIT 500".data) = true := by
  unfold hasLimitTok
  apply List.any_eq_true.mpr
  refine ⟨x.length + 1, ?_, ?_⟩
  · apply List.mem_range.mpr
    simp [List.length_append]
  · have hd1 : (x ++ '\n' :: "LIMIT 500".data).drop x.length = '\n' :: "LIMIT 500".data :=
      List.drop_left x _
    have hd2 : (x ++ '\n' :: "LIMIT 500".data).drop (x.length + 1) = "LIMIT 500".data := by
      have : x.length + 1 = (x ++ ['\n']).length := by simp
      rw [List.append_cons x '\n' _, this, List.drop_left]
    have hd3 : (x ++ '\n' :: "LIMIT 500".data).drop (x.length + 1 + 5) = " 500".data := by
      have h6 : x.length + 1 + 5 = (x ++ '\n' :: "LIMIT".data).length := by simp
      have hsplit : x ++ '\n' :: "LIMIT 500".data =
          (x ++ '\n' :: "LIMIT".data) ++ " 500".data := by simp
      rw [hsplit, h6, List.drop_left]
    unfold limitTokAt
    rw [if_pos]
    · rw [hd3]
      norm_num
      decide
    · simp only [Bool.and_eq_true]
      refine ⟨?_, ?_⟩
      · unfold bAt wcAt
        rw [if_neg (by omega)]
        have : x.length + 1 - 1 = x.length := by omega
        rw [this, hd1, hd2]
        decide
      · unfold ciSeqAt
        rw [hd2]
        decide

/-- C4 counterexample: the guard of src/api/query.js accepts
`LIMIT 501` and returns it unchanged — nothing is clamped to 500. -/
theorem c4_counterexample :
    guardSqlApi "SELECT ts FROM public.market_data LIMIT 501".data mdTables mdCols =
      .ok "SELECT ts FROM public.market_data LIMIT 501".data ∧
    hasSeq "LIMIT 501".data "SELECT ts FROM public.market_data LIMIT 501".data = true := by
  refine ⟨by decide, by decide⟩

/-- C4 amended. (1) In src/api/query.js, an accepted statement is
returned verbatim when it already contains any `LIMIT n` token (no
clamping, whatever `n`), and gets `\nLIMIT 500` appended — hence ends up
with a limit token — only when it contains none. (2) In src/lib/guard.js,
`ensureLimit` instead rewrites every `LIMIT n` token (top-level or not)
to `LIMIT min(n, 500)` — with `LIMIT 0` becoming `LIMIT 500` — and
appends `\nLIMIT 500` when there is none, as the concrete cases show. -/
theorem c4_limit_normalisation :
    (∀ (sql : Chars) (T : List Chars) (C : List (Chars × List Chars)) (out : Chars),
      guardSqlApi sql T C = .ok out →
      hasLimitTok out = true ∧
      (hasLimitTok (prepSql sql) = true → out = prepSql sql) ∧
      (hasLimitTok (prepSql sql) = false →
        out = trimL (prepSql sql) ++ '\n' :: "LIMIT 500".data)) ∧
    ensureLimitLib "SELECT ts FROM public.market_data LIMIT 501".data 500 =
      "SELECT ts FROM public.market_data LIMIT 500".data ∧
    ensureLimitLib "SELECT x FROM t LIMIT 0".data 500 =
      "SELECT x FROM t LIMIT 500".data ∧
    ensureLimitLib "SELECT a FROM (SELECT b FROM t LIMIT 900) s LIMIT 2".data 500 =
      "SELECT a FROM (SELECT b FROM t LIMIT 500) s LIMIT 2".data ∧
    ensureLimitLib "SELECT x FROM t".data 500 = "SELECT x FROM t\nLIMIT 500".data ∧
    guardSqlLib "SELECT ts FROM public.market_data LIMIT 501".data
      ["public.market_data".data] 500 =
      .ok "SELECT ts FROM public.market_data LIMIT 500".data := by
  refine ⟨?_, by decide, by decide, by decide, by decide, by decide⟩
  intro sql T C out hok
  have hout : out = ensureLimitApi (prepSql sql) 500 := by
    unfold guardSqlApi at hok
    cases hchk : guardChecks (maskScan (prepSql sql)) T C with
    | error e =>
      rw [hchk] at hok
      simp [Except.map] at hok
    | ok u =>
      rw [hchk] at hok
      simp only [Except.map, Except.ok.injEq] at hok
      exact hok.symm
  refine ⟨?_, ?_, ?_⟩
  · rw [hout]
    unfold ensureLimitApi
    by_cases h : hasLimitTok (prepSql sql) = true
    · rw [if_pos h]; exact h
    · rw [if_neg h]
      have : "LIMIT ".data ++ natDigits 500 = "LIMIT 500".data := by decide
      rw [this]
      exact hasLimitTok_append _
  · intro h
    rw [hout]
    unfold ensureLimitApi
    rw [if_pos h]
  · intro h
    rw [hout]
    unfold ensureLimitApi
    rw [if_neg (by simp [h])]
    have : "LIMIT ".data ++ natDigits 500 = "LIMIT 500".data := by decide
    rw [this]

/-- Witness for C4 amended: a statement with no limit token gets
`LIMIT 500` appended. -/
theorem c4_limit_normalisation_witness :
    hasLimitTok "SELECT ts FROM public.market_data\nLIMIT 500".data = true ∧
    "SELECT ts FROM public.market_data\nLIMIT 500".data =
      trimL (prepSql "SELECT ts FROM public.market_data".data) ++
        '\n' :: "LIMIT 500".data := by
  have h := (c4_limit_normalisation.1 "SELECT ts FROM public.market_data".data
    mdTables mdCols "SELECT ts FROM public.market_data\nLIMIT 500".data (by decide))
  exact ⟨h.1, h.2.2 (by decide)⟩

/-- Witness for C3 amended, at a statement that passes every earlier
check: the guard names the offending reference. -/
theorem c3_column_not_allowed_witness :
    guardDecision "SELECT market_data.bogus FROM public.market_data".data
      mdTables mdCols =
      .error ("Column not allowed: " ++ String.mk "market_data".data ++ "." ++
        String.mk "bogus".data) :=
  (c3_column_not_allowed _ mdTables mdCols).2 []
    "market_data.bogus".data ["public.market_data".data]
    "market_data".data "bogus".data
    (by decide) (by decide) (by decide) (by decide) (by decide) (by decide)
    (by intro r hr; cases hr) (by decide)

/-! ## C8: the rewriter and string literals -/

theorem ciSeqAt_succ (pat : Chars) (c : Char) (l : Chars) (i : Nat) :
    ciSeqAt pat (c :: l) (i + 1) = ciSeqAt pat l i := rfl

theorem ciSeqAt_false_all {pat l : Chars} (hp : pat ≠ [])
    (h : hasSeqCI pat l = false) : ∀ i, ciSeqAt pat l i = false := by
  intro i
  by_cases hi : i < l.length + 1
  · have h' := List.any_eq_false.mp h i (List.mem_range.mpr hi)
    exact Bool.eq_false_iff.mpr h'
  · have hd : l.drop i = [] := List.drop_eq_nil_of_le (by omega)
    unfold ciSeqAt
    rw [hd]
    cases pat with
    | nil => exact absurd rfl hp
    | cons a t => rfl

theorem rule1MatchAt_none {l : Chars}
    (h : ciSeqAt "utilization".data l 0 = false) : rule1MatchAt l = none := by
  unfold rule1MatchAt
  rw [h]
  rfl

theorem rule1F_id : ∀ (fuel : Nat) (l : Chars),
    (∀ i, ciSeqAt "utilization".data l i = false) → rule1F fuel l = l := by
  intro fuel
  induction fuel with
  | zero => intro l _; rfl
  | succ f ih =>
    intro l h
    cases l with
    | nil => rfl
    | cons c t =>
      have hm := rule1MatchAt_none (h 0)
      have ht : ∀ i, ciSeqAt "utilization".data t i = false := by
        intro i; have := h (i + 1); rwa [ciSeqAt_succ] at this
      simp only [rule1F, hm]
      rw [ih t ht]

theorem percMatchAt_none {l : Chars}
    (h : ciSeqAt "percentile_cont".data l 0 = false) : percMatchAt l = none := by
  unfold percMatchAt percEat1 eatCI
  rw [h]
  rfl

theorem rule4F_id (al : Chars) (sr : Bool) : ∀ (fuel : Nat) (l : Chars),
    (∀ i, ciSeqAt "percentile_cont".data l i = false) →
    rule4F al sr fuel l = l := by
  intro fuel
  induction fuel with
  | zero => intro l _; rfl
  | succ f ih =>
    intro l h
    cases l with
    | nil => rfl
    | cons c t =>
      have hm := percMatchAt_none (h 0)
      have ht : ∀ i, ciSeqAt "percentile_cont".data t i = false := by
        intro i; have := h (i + 1); rwa [ciSeqAt_succ] at this
      simp only [rule4F, hm]
      rw [ih t ht]

theorem hasUtil_false {s : Chars}
    (h : ∀ i, ciSeqAt "utilization".data s i = false) : hasUtil s = false := by
  unfold hasUtil
  refine List.any_eq_false.mpr ?_
  intro i _
  simp [h i]

theorem tweak_inert (s q : Chars)
    (hu : hasSeqCI "utilization".data s = false)
    (hpc : hasSeqCI "percentile_cont".data s = false)
    (hq : qAtLeast24 q = false) :
    tweakSqlHeuristics s q = s := by
  have hu' := ciSeqAt_false_all (by decide) hu
  have hpc' := ciSeqAt_false_all (by decide) hpc
  have h1 : rule1All s = s := rule1F_id s.length s hu'
  have h3 : rule3All s q = s := by
    unfold rule3All
    by_cases hcond : (qHourly q && !hasDtHour s) = true
    · rw [if_pos hcond, hasUtil_false hu']
      simp
    · rw [if_neg hcond]
  have h4 : rule4All s = s := by
    unfold rule4All
    exact rule4F_id _ _ s.length s hpc'
  simp only [tweakSqlHeuristics]
  rw [h1, h3, hq]
  simpa using h4

/-- Counterexample for C8: the percent-to-fraction rule rewrites the
threshold inside the single-quoted literal of
`SELECT x FROM t WHERE note = 'utilization >= 85'`, changing the
literal content from `utilization >= 85` to `utilization >= 0.8500`. -/
theorem c8_counterexample :
    "SELECT x FROM t WHERE note = 'utilization >= 85'".data =
      "SELECT x FROM t WHERE note = ".data ++
        '\'' :: "utilization >= 85".data ++ ['\''] ∧
    tweakSqlHeuristics "SELECT x FROM t WHERE note = 'utilization >= 85'".data
        "".data =
      "SELECT x FROM t WHERE note = ".data ++
        '\'' :: "utilization >= 0.8500".data ++ ['\''] ∧
    "utilization >= 85".data ≠ "utilization >= 0.8500".data :=
  ⟨by decide, by decide, by decide⟩

/-- **C8 (corrected).** The rewriter does not preserve string-literal
content: rule 1 rewrites a percent threshold inside a literal (first
conjunct, the counterexample input).  The rewriter is the identity -
literals included - whenever none of its textual triggers fire: no
`utilization` and no `percentile_cont` occurrence in the SQL and no
`at least 24` match in the question (second conjunct). -/
theorem c8_literal_preservation :
    (tweakSqlHeuristics "SELECT x FROM t WHERE note = 'utilization >= 85'".data
        "".data =
      "SELECT x FROM t WHERE note = ".data ++
        '\'' :: "utilization >= 0.8500".data ++ ['\'']) ∧
    (∀ s q : Chars, hasSeqCI "utilization".data s = false →
      hasSeqCI "percentile_cont".data s = false →
      qAtLeast24 q = false →
      tweakSqlHeuristics s q = s) :=
  ⟨by decide, tweak_inert⟩

/-- Witness for C8: a statement with none of the triggers is returned
verbatim. -/
theorem c8_literal_preservation_witness :
    tweakSqlHeuristics "SELECT ts FROM public.market_data".data "".data =
      "SELECT ts FROM public.market_data".data :=
  c8_literal_preservation.2 _ _ (by decide) (by decide) (by decide)



theorem isDigitC_toNat {c : Char} (h : isDigitC c = true) :
    48 ≤ c.toNat ∧ c.toNat ≤ 57 := by
  unfold isDigitC Char.isDigit at h
  rw [Bool.and_eq_true] at h
  obtain ⟨h1, h2⟩ := h
  rw [decide_eq_true_eq] at h1 h2
  exact ⟨UInt32.le_toNat_of_le (by decide) h1, UInt32.toNat_le_of_le (by decide) h2⟩

theorem digit_toLower {c : Char} (h : isDigitC c = true) : c.toLower = c := by
  obtain ⟨h1, h2⟩ := isDigitC_toNat h
  unfold Char.toLower
  simp only
  rw [if_neg (by omega)]

theorem digit_toLower_ne {c d : Char} (h : isDigitC c = true)
    (hd : 97 ≤ d.toNat) : c.toLower ≠ d := by
  obtain ⟨h1, h2⟩ := isDigitC_toNat h
  rw [digit_toLower h]
  intro he
  have := congrArg Char.toNat he
  omega

theorem digitChar_toNat {d : Nat} (h : d < 10) :
    (Char.ofNat (48 + d)).toNat = 48 + d :=
  toNat_ofNat_valid (by omega)

theorem digitChar_isDigit {d : Nat} (h : d < 10) :
    isDigitC (Char.ofNat (48 + d)) = true := by
  interval_cases d <;> decide

theorem charsToNat_append_digit (l : Chars) (c : Char) :
    charsToNat (l ++ [c]) = 10 * charsToNat l + (c.toNat - 48) := by
  unfold charsToNat
  rw [List.foldl_append]
  simp [Nat.mul_comm]

theorem natDigitsF_toNat : ∀ (fuel n : Nat), n < fuel →
    charsToNat (natDigitsF fuel n) = n := by
  intro fuel
  induction fuel with
  | zero => intro n h; omega
  | succ f ih =>
    intro n h
    by_cases h10 : n < 10
    · simp only [natDigitsF, if_pos h10]
      unfold charsToNat
      simp [digitChar_toNat h10]
    · simp only [natDigitsF, if_neg h10]
      have hlt : n / 10 < f := by
        have := Nat.div_lt_self (by omega : 0 < n) (by omega : 1 < 10)
        omega
      rw [charsToNat_append_digit, ih (n / 10) hlt,
        digitChar_toNat (Nat.mod_lt _ (by omega))]
      omega

theorem charsToNat_natDigits (n : Nat) : charsToNat (natDigits n) = n :=
  natDigitsF_toNat (n + 1) n (by omega)

theorem natDigitsF_digits : ∀ (fuel n : Nat), ∀ c ∈ natDigitsF fuel n,
    isDigitC c = true := by
  intro fuel
  induction fuel with
  | zero => intro n c hc; simp [natDigitsF] at hc
  | succ f ih =>
    intro n c hc
    by_cases h10 : n < 10
    · simp only [natDigitsF, if_pos h10, List.mem_singleton] at hc
      subst hc
      exact digitChar_isDigit h10
    · simp only [natDigitsF, if_neg h10, List.mem_append,
        List.mem_singleton] at hc
      rcases hc with hl | hr
      · exact ih _ c hl
      · subst hr
        exact digitChar_isDigit (Nat.mod_lt _ (by omega))

theorem natDigits_digits (n : Nat) : ∀ c ∈ natDigits n, isDigitC c = true :=
  natDigitsF_digits (n + 1) n

theorem natDigits_ne_nil (n : Nat) : natDigits n ≠ [] := by
  unfold natDigits natDigitsF
  split <;> simp

theorem natDigitsF_len : ∀ (fuel n k : Nat), n < fuel → n < 10 ^ k → 0 < k →
    (natDigitsF fuel n).length ≤ k := by
  intro fuel
  induction fuel with
  | zero => intro n k h; omega
  | succ f ih =>
    intro n k h hk hk0
    by_cases h10 : n < 10
    · simp only [natDigitsF, if_pos h10, List.length_singleton]
      omega
    · simp only [natDigitsF, if_neg h10, List.length_append,
        List.length_singleton]
    
      have hk2 : 2 ≤ k := by
        by_contra hlt
        have : k = 1 := by omega
        subst this
        simp at hk
        omega
      have hdiv : n / 10 < 10 ^ (k - 1) := by
        rw [Nat.div_lt_iff_lt_mul (by omega)]
        have : 10 ^ (k - 1) * 10 = 10 ^ k := by
          rw [Nat.mul_comm, ← Nat.pow_succ']
          congr 1
          omega
        omega
      have hfl : n / 10 < f := by
        have := Nat.div_lt_self (by omega : 0 < n) (by omega : 1 < 10)
        omega
      have := ih (n / 10) (k - 1) hfl hdiv (by omega)
      omega

theorem charsToNat_zero_prefix : ∀ (k : Nat) (l : Chars),
    charsToNat (List.replicate k '0' ++ l) = charsToNat l := by
  intro k
  induction k with
  | zero => intro l; rfl
  | succ m ih =>
    intro l
    rw [List.replicate_succ, List.cons_append]
    unfold charsToNat
    simp only [List.foldl_cons]
    have : (0 : Nat) * 10 + ('0'.toNat - 48) = 0 := by decide
    rw [this]
    exact ih l

theorem charsToNat_append (a b : Chars) :
    charsToNat (a ++ b) = charsToNat a * 10 ^ b.length + charsToNat b := by
  induction b using List.reverseRecOn with
  | nil => simp [charsToNat]
  | append_singleton b c ih =>
    rw [← List.append_assoc, charsToNat_append_digit, ih,
      charsToNat_append_digit, List.length_append, List.length_singleton,
      pow_succ]
    ring

theorem takeWhile_all {p : Char → Bool} : ∀ (l : Chars),
    (∀ c ∈ l, p c = true) → l.takeWhile p = l := by
  intro l h
  induction l with
  | nil => rfl
  | cons c t ih =>
    rw [List.takeWhile_cons_of_pos (h c (by simp))]
    rw [ih (fun x hx => h x (by simp [hx]))]

theorem takeWhile_nil_of_head {p : Char → Bool} {l : Chars}
    (h : headIs p l = false) : l.takeWhile p = [] := by
  cases l with
  | nil => rfl
  | cons c t =>
    unfold headIs at h
    simp only [List.head?_cons] at h
    exact List.takeWhile_cons_of_neg (by simp [h])

theorem takeWhile_append_all {p : Char → Bool} (a b : Chars)
    (ha : ∀ c ∈ a, p c = true) (hb : headIs p b = false) :
    (a ++ b).takeWhile p = a := by
  induction a with
  | nil => simpa using takeWhile_nil_of_head hb
  | cons c t ih =>
    rw [List.cons_append, List.takeWhile_cons_of_pos (ha c (by simp))]
    rw [ih (fun x hx => ha x (by simp [hx]))]

theorem rule1Op_speq {rest : Chars} (h : headIs isSp rest = false) :
    rule1Op (' ' :: '>' :: '=' :: ' ' :: rest) = some (4, rest) := by
  have h1 : (' ' :: '>' :: '=' :: ' ' :: rest).takeWhile isSp = [' '] := by
    rw [List.takeWhile_cons_of_pos (by decide),
      List.takeWhile_cons_of_neg (by decide)]
  have h2 : (' ' :: rest).takeWhile isSp = [' '] := by
    rw [List.takeWhile_cons_of_pos (by decide), takeWhile_nil_of_head h]
  simp only [rule1Op, h1]
  simp [h2]

theorem rule1Num_nofrac {d1 : Chars} (h1 : d1 ≠ [])
    (ha : ∀ c ∈ d1, isDigitC c = true) :
    rule1Num d1 = some ((d1, []), []) := by
  simp only [rule1Num, takeWhile_all d1 ha, if_neg h1, List.drop_length]
  rfl

theorem rule1Num_frac {d1 d2 : Chars} (h1 : d1 ≠ [])
    (ha : ∀ c ∈ d1, isDigitC c = true) (h2 : d2 ≠ [])
    (hb : ∀ c ∈ d2, isDigitC c = true) :
    rule1Num (d1 ++ '.' :: d2) = some ((d1, d2), []) := by
  have hbrk : headIs isDigitC ('.' :: d2) = false := rfl
  simp only [rule1Num, takeWhile_append_all d1 ('.' :: d2) ha hbrk,
    if_neg h1, List.drop_left]
  simp only [List.head?_cons, List.tail_cons, takeWhile_all d2 hb]
  simp [h2, List.drop_length]

theorem ciSeqAt_util_head (num : Chars) :
    ciSeqAt "utilization".data ("utilization >= ".data ++ num) 0 = true := by
  unfold ciSeqAt lcL
  rw [List.drop_zero, List.map_append]
  rw [show "utilization".data.map Char.toLower = "utilization".data from by decide,
    show "utilization >= ".data.map Char.toLower = "utilization >= ".data
      from by decide]
  rw [ List.isPrefixOf_iff_prefix]
  exact List.IsPrefix.trans ⟨" >= ".data, by decide⟩
    (List.prefix_append _ _)

theorem rule1MatchAt_head {num d1 d2 rest : Chars}
    (hsp : headIs isSp num = false)
    (hnum : rule1Num num = some ((d1, d2), rest)) :
    rule1MatchAt ("utilization >= ".data ++ num) =
      some (("utilization >= ".data, d1, d2), rest) := by
  have hsplit : "utilization >= ".data ++ num =
      "utilization".data ++ (' ' :: '>' :: '=' :: ' ' :: num) := rfl
  unfold rule1MatchAt
  rw [if_pos (ciSeqAt_util_head num)]
  rw [hsplit, List.drop_left' (by decide), rule1Op_speq hsp]
  simp only [hnum]
  rw [← hsplit, List.take_left' (by decide)]

theorem rule1F_nil_all : ∀ fuel, rule1F fuel [] = [] := by
  intro fuel
  cases fuel <;> rfl

theorem rule1F_head_match {X left d1 d2 : Chars}
    (hm : rule1MatchAt X = some ((left, d1, d2), [])) (fuel : Nat) :
    rule1F (fuel + 1) X = rule1Repl left d1 d2 := by
  cases X with
  | nil =>
    have : rule1MatchAt ([] : Chars) = none := by decide
    rw [this] at hm
    cases hm
  | cons c t =>
    simp only [rule1F, hm, rule1F_nil_all]
    simp

theorem ciSeqAt_head_ne {p1 : Char} {pr : Chars} {c : Char} {l : Chars}
    (h : c.toLower ≠ p1.toLower) : ciSeqAt (p1 :: pr) (c :: l) 0 = false := by
  unfold ciSeqAt lcL
  simp only [List.drop_zero, List.map_cons, List.isPrefixOf]
  simp [Ne.symm h]

theorem ciSeqAt_no_head {p1 : Char} {pr l : Chars}
    (h : ∀ c ∈ l, c.toLower ≠ p1.toLower) (i : Nat) :
    ciSeqAt (p1 :: pr) l i = false := by
  cases hd : l.drop i with
  | nil =>
    unfold ciSeqAt
    rw [hd]
    rfl
  | cons c t =>
    have hc : c ∈ l := List.drop_subset i l (by rw [hd]; simp)
    have : ciSeqAt (p1 :: pr) (c :: t) 0 = false := ciSeqAt_head_ne (h c hc)
    unfold ciSeqAt at this ⊢
    rw [hd]
    simpa using this

theorem rule1F_skip : ∀ (pre : Chars), (∀ c ∈ pre, c.toLower ≠ 'u') →
    ∀ (fuel : Nat) (tail : Chars),
    rule1F (pre.length + fuel) (pre ++ tail) = pre ++ rule1F fuel tail := by
  intro pre
  induction pre with
  | nil =>
    intro _ fuel tail
    simp
  | cons c p ih =>
    intro h fuel tail
    have hcu : c.toLower ≠ 'u' := h c (by simp)
    have hci : ciSeqAt "utilization".data (c :: (p ++ tail)) 0 = false := by
      have : ciSeqAt ('u' :: "tilization".data) (c :: (p ++ tail)) 0 = false :=
        ciSeqAt_head_ne (by rw [show 'u'.toLower = 'u' from rfl]; exact hcu)
      exact this
    have hm := rule1MatchAt_none hci
    have hlen : (c :: p).length + fuel = (p.length + fuel) + 1 := by
      simp [List.length_cons]
      omega
    rw [List.cons_append, hlen]
    simp only [rule1F, hm]
    rw [ih (fun x hx => h x (by simp [hx])) fuel tail]
    rfl

theorem rule3All_skipQ {s q : Chars} (hq : qHourly q = false) :
    rule3All s q = s := by
  unfold rule3All
  rw [hq]
  rfl

theorem rule4All_id {s : Chars} (h : ∀ c ∈ s, c.toLower ≠ 'p') :
    rule4All s = s := by
  unfold rule4All
  refine rule4F_id _ _ s.length s ?_
  intro i
  have : ciSeqAt ('p' :: "ercentile_cont".data) s i = false :=
    ciSeqAt_no_head (fun c hc => by
      rw [show 'p'.toLower = 'p' from rfl]; exact h c hc) i
  exact this

theorem toFixed4Cents_chars (m k : Nat) :
    ∀ c ∈ toFixed4Cents m k, isDigitC c = true ∨ c = '.' := by
  intro c hc
  unfold toFixed4Cents at hc
  simp only [List.mem_append, List.mem_cons] at hc
  rcases hc with h1 | h2 | h3
  · exact Or.inl (natDigits_digits _ c h1)
  · exact Or.inr h2
  · unfold padZeros at h3
    rw [List.mem_append] at h3
    rcases h3 with h4 | h5
    · exact Or.inl (by
        have := List.eq_of_mem_replicate h4
        subst this
        decide)
    · exact Or.inl (natDigits_digits _ c h5)

theorem rule1Repl_no_p {d1 d2 : Chars}
    (h1 : ∀ c ∈ d1, isDigitC c = true) (h2 : ∀ c ∈ d2, isDigitC c = true) :
    ∀ c ∈ rule1Repl "utilization >= ".data d1 d2, c.toLower ≠ 'p' := by
  intro c hc
  have hdig : ∀ {x : Char}, isDigitC x = true ∨ x = '.' → x.toLower ≠ 'p' := by
    intro x hx
    rcases hx with hd | hdot
    · exact digit_toLower_ne hd (by decide)
    · subst hdot
      decide
  simp only [rule1Repl] at hc
  by_cases hge : charsToNat (d1 ++ d2) ≥ 10 ^ d2.length
  · rw [if_pos hge, List.mem_append] at hc
    rcases hc with hl | hr
    · fin_cases hl <;> decide
    · exact hdig (toFixed4Cents_chars _ _ c hr)
  · rw [if_neg hge] at hc
    simp only [List.append_assoc, List.mem_append] at hc
    rcases hc with hl | hm | hr
    · fin_cases hl <;> decide
    · exact hdig (Or.inl (h1 c hm))
    · by_cases hd2e : d2 = []
      · rw [if_pos hd2e] at hr
        cases hr
      · rw [if_neg hd2e, List.mem_cons] at hr
        rcases hr with hdot | hd2m
        · subst hdot
          decide
        · exact hdig (Or.inl (h2 c hd2m))

theorem tweak_head_match {Y d1 d2 : Chars}
    (hm : rule1MatchAt ("utilization >= ".data ++ Y) =
      some (("utilization >= ".data, d1, d2), []))
    (hd1 : ∀ c ∈ d1, isDigitC c = true) (hd2 : ∀ c ∈ d2, isDigitC c = true) :
    tweakSqlHeuristics
        ("SELECT x FROM t WHERE ".data ++ ("utilization >= ".data ++ Y)) [] =
      "SELECT x FROM t WHERE ".data ++
        rule1Repl "utilization >= ".data d1 d2 := by
  have h1 : rule1All
      ("SELECT x FROM t WHERE ".data ++ ("utilization >= ".data ++ Y)) =
      "SELECT x FROM t WHERE ".data ++
        rule1Repl "utilization >= ".data d1 d2 := by
    unfold rule1All
    rw [List.length_append]
    rw [rule1F_skip "SELECT x FROM t WHERE ".data (by decide)]
    have hx : ("utilization >= ".data ++ Y).length = (14 + Y.length) + 1 := by
      rw [List.length_append]
      simp
      omega
    rw [hx, rule1F_head_match hm]
  simp only [tweakSqlHeuristics]
  rw [h1, rule3All_skipQ (by decide), if_neg (by decide)]
  refine rule4All_id ?_
  intro c hc
  rw [List.mem_append] at hc
  rcases hc with hl | hr
  · fin_cases hl <;> decide
  · exact rule1Repl_no_p hd1 hd2 c hr

theorem rule1Repl_int (n : Nat) :
    rule1Repl "utilization >= ".data (natDigits n) [] =
      if 1 ≤ n then "utilization >= ".data ++ toFixed4Cents n 0
      else "utilization >= ".data ++ natDigits n := by
  simp only [rule1Repl, List.append_nil, charsToNat_natDigits,
    List.length_nil, pow_zero, ge_iff_le]
  by_cases h : 1 ≤ n
  · rw [if_pos h, if_pos h]
  · rw [if_neg h, if_neg h]
    simp

theorem toFixed4Cents_zero (n : Nat) : toFixed4Cents n 0 =
    natDigits (100 * n / 10000) ++ '.' ::
      padZeros (natDigits (100 * n % 10000)) 4 := by
  unfold toFixed4Cents
  simp only [pow_zero, mul_one]
  have h : (2 * (n * 100) + 1) / 2 = 100 * n := by omega
  rw [h]

theorem padZeros_digits {d : Chars} (h : ∀ c ∈ d, isDigitC c = true)
    (k : Nat) : ∀ c ∈ padZeros d k, isDigitC c = true := by
  intro c hc
  unfold padZeros at hc
  rw [List.mem_append] at hc
  rcases hc with hl | hr
  · have := List.eq_of_mem_replicate hl
    subst this
    decide
  · exact h c hr

theorem padZeros_ne_nil {d : Chars} (h : d ≠ []) (k : Nat) :
    padZeros d k ≠ [] := by
  unfold padZeros
  simp [h]

theorem padZeros_len {d : Chars} {k : Nat} (h : d.length ≤ k) :
    (padZeros d k).length = k := by
  unfold padZeros
  rw [List.length_append, List.length_replicate]
  omega

theorem charsToNat_padZeros (d : Chars) (k : Nat) :
    charsToNat (padZeros d k) = charsToNat d := charsToNat_zero_prefix _ _

theorem natDigits_len_le {n k : Nat} (hn : n < 10 ^ k) (hk : 0 < k) :
    (natDigits n).length ≤ k := natDigitsF_len (n + 1) n k (by omega) hn hk

theorem headIs_isSp_digits {d : Chars} (hne : d ≠ [])
    (h : ∀ c ∈ d, isDigitC c = true) (rest : Chars) :
    headIs isSp (d ++ rest) = false := by
  cases d with
  | nil => exact absurd rfl hne
  | cons c t =>
    obtain ⟨h1, h2⟩ := isDigitC_toNat (h c (by simp))
    have hned : ∀ d : Char, d.toNat < 48 → ¬(c = d) := by
      intro d hd he
      subst he
      omega
    unfold headIs isSp Char.isWhitespace
    simp only [List.cons_append, List.head?_cons]
    simp [hned ' ' (by decide), hned '\t' (by decide), hned '\r' (by decide),
      hned '\n' (by decide)]

theorem int_match (n : Nat) :
    rule1MatchAt ("utilization >= ".data ++ natDigits n) =
      some (("utilization >= ".data, natDigits n, []), []) := by
  apply rule1MatchAt_head
  · have := headIs_isSp_digits (natDigits_ne_nil n) (natDigits_digits n) []
    rwa [List.append_nil] at this
  · exact rule1Num_nofrac (natDigits_ne_nil n) (natDigits_digits n)

theorem frac_match (n : Nat) :
    rule1MatchAt ("utilization >= ".data ++ toFixed4Cents n 0) =
      some (("utilization >= ".data, natDigits (100 * n / 10000),
        padZeros (natDigits (100 * n % 10000)) 4), []) := by
  rw [toFixed4Cents_zero]
  apply rule1MatchAt_head
  · exact headIs_isSp_digits (natDigits_ne_nil _) (natDigits_digits _) _
  · exact rule1Num_frac (natDigits_ne_nil _) (natDigits_digits _)
      (padZeros_ne_nil (natDigits_ne_nil _) 4)
      (padZeros_digits (natDigits_digits _) 4)

theorem natDigits_len4 {m : Nat} (h : m < 10000) :
    (natDigits m).length ≤ 4 :=
  natDigits_len_le (by norm_num; omega) (by norm_num)

theorem mant_second (n : Nat) :
    charsToNat (natDigits (100 * n / 10000) ++
      padZeros (natDigits (100 * n % 10000)) 4) = 100 * n := by
  have hlen : (padZeros (natDigits (100 * n % 10000)) 4).length = 4 :=
    padZeros_len (natDigits_len4 (Nat.mod_lt _ (by norm_num)))
  rw [charsToNat_append, charsToNat_padZeros, charsToNat_natDigits,
    charsToNat_natDigits, hlen]
  norm_num
  omega

theorem rule1Repl_second (n : Nat) :
    rule1Repl "utilization >= ".data (natDigits (100 * n / 10000))
        (padZeros (natDigits (100 * n % 10000)) 4) =
      if 100 ≤ n then "utilization >= ".data ++ toFixed4Cents (100 * n) 4
      else "utilization >= ".data ++ toFixed4Cents n 0 := by
  have hlen : (padZeros (natDigits (100 * n % 10000)) 4).length = 4 :=
    padZeros_len (natDigits_len4 (Nat.mod_lt _ (by norm_num)))
  simp only [rule1Repl, mant_second, hlen, ge_iff_le]
  by_cases h : 100 ≤ n
  · rw [if_pos (by norm_num; omega), if_pos h]
  · rw [if_neg (by norm_num; omega), if_neg h,
      if_neg (padZeros_ne_nil (natDigits_ne_nil _) 4), toFixed4Cents_zero]
    simp [List.append_assoc]

theorem toFixed4Cents_second (n : Nat) : toFixed4Cents (100 * n) 4 =
    natDigits (n / 10000) ++ '.' :: padZeros (natDigits (n % 10000)) 4 := by
  unfold toFixed4Cents
  norm_num
  have h : (2 * (100 * n * 100) + 10000) / 20000 = n := by omega
  rw [h]

theorem append_dot_inj : ∀ (e : Chars) {d f₁ f₂ : Chars},
    (∀ c ∈ e, c ≠ '.') → (∀ c ∈ d, c ≠ '.') →
    e ++ '.' :: f₁ = d ++ '.' :: f₂ → e = d ∧ f₁ = f₂ := by
  intro e
  induction e with
  | nil =>
    intro d f₁ f₂ _ h2 he
    cases d with
    | nil => simpa using he
    | cons b r =>
      simp only [List.nil_append, List.cons_append, List.cons.injEq] at he
      exact absurd he.1.symm (h2 b (by simp))
  | cons a t ih =>
    intro d f₁ f₂ h1 h2 he
    cases d with
    | nil =>
      simp only [List.cons_append, List.nil_append, List.cons.injEq] at he
      exact absurd he.1 (h1 a (by simp))
    | cons b r =>
      simp only [List.cons_append, List.cons.injEq] at he
      obtain ⟨hab, hrest⟩ := he
      obtain ⟨hd, hf⟩ := ih (fun c hc => h1 c (by simp [hc]))
        (fun c hc => h2 c (by simp [hc])) hrest
      exact ⟨by rw [hab, hd], hf⟩

theorem digit_ne_dot {c : Char} (h : isDigitC c = true) : c ≠ '.' := by
  intro he
  subst he
  exact absurd h (by decide)

theorem tweak_pass1 (n : Nat) :
    tweakSqlHeuristics
        ("SELECT x FROM t WHERE utilization >= ".data ++ natDigits n) [] =
      "SELECT x FROM t WHERE ".data ++
        rule1Repl "utilization >= ".data (natDigits n) [] := by
  have hsp : "SELECT x FROM t WHERE utilization >= ".data ++ natDigits n =
      "SELECT x FROM t WHERE ".data ++
        ("utilization >= ".data ++ natDigits n) := rfl
  rw [hsp]
  exact tweak_head_match (int_match n) (natDigits_digits n)
    (by intro c hc; simp at hc)

theorem tweak_pass2 (n : Nat) :
    tweakSqlHeuristics
        ("SELECT x FROM t WHERE utilization >= ".data ++ toFixed4Cents n 0)
        [] =
      "SELECT x FROM t WHERE ".data ++
        rule1Repl "utilization >= ".data (natDigits (100 * n / 10000))
          (padZeros (natDigits (100 * n % 10000)) 4) := by
  have hsp : "SELECT x FROM t WHERE utilization >= ".data ++
        toFixed4Cents n 0 =
      "SELECT x FROM t WHERE ".data ++
        ("utilization >= ".data ++ toFixed4Cents n 0) := rfl
  rw [hsp]
  exact tweak_head_match (frac_match n) (natDigits_digits _)
    (padZeros_digits (natDigits_digits _) 4)

/-- Counterexample for C7: the rewriter is not idempotent.  On
`SELECT x FROM t WHERE utilization >= 100` one application yields
`... utilization >= 1.0000`, and a second application divides again,
yielding `... utilization >= 0.0100`. -/
theorem c7_counterexample :
    tweakSqlHeuristics (tweakSqlHeuristics
        "SELECT x FROM t WHERE utilization >= 100".data "".data) "".data ≠
      tweakSqlHeuristics "SELECT x FROM t WHERE utilization >= 100".data
        "".data := by
  decide

/-- **C7 (corrected).** The rewriter is not idempotent.  For every
integer threshold `n ≤ 10^6`: one application of the rewriter to
`SELECT x FROM t WHERE utilization >= n` divides the threshold by 100
(rendering it with four decimals) whenever `n ≥ 1`; and a second
application returns the first result unchanged exactly when `n < 100` -
for `n ≥ 100` the rewritten value is still `≥ 1` and is divided a
second time.  The bound keeps the statement inside the regime where the
exact rational model of `parseFloat`/`toFixed(4)` coincides with the
IEEE-double arithmetic the code performs (there `parseFloat` is exact,
the relative error of the double division is far below the final
rounding step, and no value sits on a rounding boundary); thresholds
near 2^53 or beyond the double range behave differently in the code and
are outside this statement. -/
theorem c7_idempotence (n : Nat) (hn : n ≤ 1000000) :
    (tweakSqlHeuristics
        ("SELECT x FROM t WHERE utilization >= ".data ++ natDigits n) [] =
      "SELECT x FROM t WHERE utilization >= ".data ++
        (if 1 ≤ n then toFixed4Cents n 0 else natDigits n)) ∧
    (tweakSqlHeuristics (tweakSqlHeuristics
          ("SELECT x FROM t WHERE utilization >= ".data ++ natDigits n) [])
        [] =
      tweakSqlHeuristics
        ("SELECT x FROM t WHERE utilization >= ".data ++ natDigits n) [] ↔
      n < 100) := by
  have h1 : tweakSqlHeuristics
      ("SELECT x FROM t WHERE utilization >= ".data ++ natDigits n) [] =
      "SELECT x FROM t WHERE utilization >= ".data ++
        (if 1 ≤ n then toFixed4Cents n 0 else natDigits n) := by
    rw [tweak_pass1, rule1Repl_int]
    by_cases h : 1 ≤ n
    · rw [if_pos h, if_pos h, ← List.append_assoc]
      rfl
    · rw [if_neg h, if_neg h, ← List.append_assoc]
      rfl
  refine ⟨h1, ?_⟩
  by_cases h0 : 1 ≤ n
  · rw [h1, if_pos h0]
    rw [tweak_pass2, rule1Repl_second]
    by_cases h100 : 100 ≤ n
    · rw [if_pos h100]
      constructor
      · intro heq
        rw [← List.append_assoc] at heq
        have hGF := List.append_cancel_left heq
        rw [toFixed4Cents_second, toFixed4Cents_zero] at hGF
        obtain ⟨hE, hF2⟩ := append_dot_inj _
          (fun c hc => digit_ne_dot (natDigits_digits _ c hc))
          (fun c hc => digit_ne_dot (natDigits_digits _ c hc)) hGF
        have v1 := congrArg charsToNat hE
        rw [charsToNat_natDigits, charsToNat_natDigits] at v1
        have v2 := congrArg charsToNat hF2
        rw [charsToNat_padZeros, charsToNat_padZeros, charsToNat_natDigits,
          charsToNat_natDigits] at v2
        omega
      · intro hlt
        exact absurd hlt (by omega)
    · rw [if_neg h100]
      constructor
      · intro _
        omega
      · intro _
        rw [← List.append_assoc]
        rfl
  · have hbase := h1
    rw [if_neg h0] at hbase
    rw [hbase, hbase]
    simp
    omega

/-- Witness for C7 at `n = 100`: the hypothesis holds and one
application rewrites the threshold to its fraction. -/
theorem c7_idempotence_witness :
    (100 : Nat) ≤ 1000000 ∧
    tweakSqlHeuristics
        ("SELECT x FROM t WHERE utilization >= ".data ++ natDigits 100) [] =
      "SELECT x FROM t WHERE utilization >= ".data ++
        (if 1 ≤ (100 : Nat) then toFixed4Cents 100 0 else natDigits 100) :=
  ⟨by decide, (c7_idempotence 100 (by decide)).1⟩

/-! ## C1: masking invariance of the guard -/

theorem litContentOk_cons_ne {x : Char} (h : x ≠ '\'') (r : Chars) :
    litContentOk (x :: r) = litContentOk r := by
  rw [litContentOk.eq_def]
  split <;> simp_all

theorem litContentOk_quote_ne {z : Char} (hz : z ≠ '\'') (w : Chars) :
    litContentOk ('\'' :: z :: w) = false := by
  rw [litContentOk.eq_def]
  split <;> simp_all
  rename_i hne heq
  exact absurd heq.1.symm hne

theorem litContentOk_append_aux : ∀ (n : Nat) (c : Chars), c.length ≤ n →
    litContentOk c = true → ∀ X : Chars,
    litContentOk (c ++ X) = litContentOk X := by
  intro n
  induction n with
  | zero =>
    intro c hc _ X
    have : c = [] := List.eq_nil_of_length_eq_zero (by omega)
    subst this
    simp
  | succ m ih =>
    intro c hlen hok X
    rcases c with _ | ⟨x, t⟩
    · simp
    by_cases hx : x = '\''
    · subst hx
      rcases t with _ | ⟨z, t'⟩
      · exact absurd hok (by decide)
      by_cases hz : z = '\''
      · subst hz
        have hok' : litContentOk t' = true := hok
        show litContentOk ('\'' :: '\'' :: (t' ++ X)) = litContentOk X
        rw [show litContentOk ('\'' :: '\'' :: (t' ++ X)) =
          litContentOk (t' ++ X) from rfl]
        exact ih t' (by simp at hlen ⊢; omega) hok' X
      · rw [litContentOk_quote_ne hz] at hok
        cases hok
    · rw [litContentOk_cons_ne hx] at hok
      rw [List.cons_append, litContentOk_cons_ne hx]
      exact ih t (by simp at hlen ⊢; omega) hok X

theorem litContentOk_append {c : Chars} (hc : litContentOk c = true)
    (X : Chars) : litContentOk (c ++ X) = litContentOk X :=
  litContentOk_append_aux c.length c (le_refl _) hc X

theorem closeIdxs_append {c : Chars} (hc : litContentOk c = true) (r : Chars) :
    closeIdxs (c ++ r) =
      (List.range c.length).filter
        (fun k => headIs (fun ch => ch = '\'') ((c ++ r).drop k) &&
          litContentOk ((c ++ r).take k)) ++
        (closeIdxs r).map (c.length + ·) := by
  unfold closeIdxs
  rw [List.length_append, List.range_add, List.filter_append, List.filter_map]
  congr 1
  rw [← List.filter_congr (q :=
    (fun k => headIs (fun ch => ch = '\'') ((c ++ r).drop k) &&
      litContentOk ((c ++ r).take k)) ∘ (c.length + ·)) ?_]
  intro j _
  simp only [Function.comp_apply]
  rw [List.drop_append, List.take_append, litContentOk_append hc]

theorem lastClose_append {c : Chars} (hc : litContentOk c = true) {r : Chars}
    {K : Nat} (hr : lastClose r = some K) :
    lastClose (c ++ r) = some (c.length + K) := by
  have hne : closeIdxs r ≠ [] := by
    intro h
    unfold lastClose at hr
    rw [h] at hr
    cases hr
  unfold lastClose at *
  rw [closeIdxs_append hc, List.getLast?_append_of_ne_nil _ (by simp [hne]),
    List.getLast?_map, hr]
  rfl

theorem closeIdxs_quote_cons {y : Char} (hy : y ≠ '\'') (w : Chars) :
    closeIdxs ('\'' :: y :: w) = [0] := by
  have hlit : ∀ j, litContentOk (('\'' :: y :: w).take (j + 1)) = false := by
    intro j
    rcases j with _ | j'
    · rfl
    · rw [show ('\'' :: y :: w).take (j' + 1 + 1) =
        '\'' :: y :: w.take j' from rfl]
      exact litContentOk_quote_ne hy _
  unfold closeIdxs
  rw [show ('\'' :: y :: w).length = (w.length + 1) + 1 from by simp,
    List.range_succ_eq_map, List.filter_cons_of_pos (by rfl), List.filter_map]
  have : List.filter ((fun k => headIs (fun ch => ch = '\'')
      (('\'' :: y :: w).drop k) &&
      litContentOk (('\'' :: y :: w).take k)) ∘ Nat.succ)
      (List.range (w.length + 1)) = [] := by
    rw [List.filter_eq_nil_iff]
    intro j _
    simp only [Function.comp_apply, Nat.succ_eq_add_one]
    rw [hlit j]
    simp
  rw [this]
  rfl

theorem closeIdxs_quote_ne_nil (suf : Chars) : closeIdxs ('\'' :: suf) ≠ [] := by
  intro h
  have h0 : 0 ∈ closeIdxs ('\'' :: suf) := by
    unfold closeIdxs
    rw [List.mem_filter]
    exact ⟨List.mem_range.mpr (by simp), by rfl⟩
  rw [h] at h0
  cases h0

theorem maskScanF_cons_ne {x : Char} (hx : x ≠ '\'') (f : Nat) (t : Chars) :
    maskScanF (f + 1) (x :: t) = x :: maskScanF f t := by
  rw [maskScanF.eq_def]
  split <;> simp_all

theorem maskScanF_indep : ∀ (fuel : Nat) (pre : Chars), NeutralPre pre →
    ∀ (c₁ c₂ suf : Chars), litContentOk c₁ = true → litContentOk c₂ = true →
    c₁.length = c₂.length →
    (pre ++ '\'' :: c₁ ++ '\'' :: suf).length ≤ fuel →
    maskScanF fuel (pre ++ '\'' :: c₁ ++ '\'' :: suf) =
      maskScanF fuel (pre ++ '\'' :: c₂ ++ '\'' :: suf) := by
  intro fuel
  induction fuel with
  | zero =>
    intro pre _ c₁ c₂ suf _ _ _ hfuel
    simp at hfuel
  | succ f ih =>
    intro pre hpre c₁ c₂ suf hc1 hc2 hlen hfuel
    cases hpre with
    | nil =>
      simp only [List.nil_append]
      obtain ⟨K, hK⟩ : ∃ K, lastClose ('\'' :: suf) = some K := by
        cases h : lastClose ('\'' :: suf) with
        | none =>
          unfold lastClose at h
          rw [List.getLast?_eq_none_iff] at h
          exact absurd h (closeIdxs_quote_ne_nil suf)
        | some K => exact ⟨K, rfl⟩
      have e1 : '\'' :: c₁ ++ '\'' :: suf =
          '\'' :: (c₁ ++ '\'' :: suf) := rfl
      have e2 : '\'' :: c₂ ++ '\'' :: suf =
          '\'' :: (c₂ ++ '\'' :: suf) := rfl
      rw [e1, e2]
      simp only [maskScanF, lastClose_append hc1 hK, lastClose_append hc2 hK]
      have hd1 : (c₁ ++ '\'' :: suf).drop (c₁.length + K + 1) =
          ('\'' :: suf).drop (K + 1) := by
        rw [Nat.add_assoc, List.drop_append]
      have hd2 : (c₂ ++ '\'' :: suf).drop (c₂.length + K + 1) =
          ('\'' :: suf).drop (K + 1) := by
        rw [Nat.add_assoc, List.drop_append]
      rw [hd1, hd2, hlen]
    | ch hx hnt =>
      rename_i x t
      simp only [List.cons_append]
      rw [maskScanF_cons_ne hx, maskScanF_cons_ne hx]
      have hfuel' : (t ++ '\'' :: c₁ ++ '\'' :: suf).length ≤ f := by
        simp at hfuel ⊢
        omega
      rw [ih t hnt c₁ c₂ suf hc1 hc2 hlen hfuel']
    | lit hb hy hnt =>
      rename_i body y t
      have eshape : ∀ c : Chars,
          ('\'' :: body ++ '\'' :: y :: t) ++ '\'' :: c ++ '\'' :: suf =
          '\'' :: (body ++ '\'' :: y :: (t ++ '\'' :: c ++ '\'' :: suf)) := by
        intro c
        simp [List.append_assoc]
      rw [eshape c₁, eshape c₂]
      have hlc : ∀ c : Chars,
          lastClose (body ++ '\'' :: y :: (t ++ '\'' :: c ++ '\'' :: suf)) =
          some (body.length + 0) :=
        fun c => lastClose_append hb (by
          unfold lastClose
          rw [closeIdxs_quote_cons hy]
          rfl)
      simp only [maskScanF, hlc c₁, hlc c₂]
      have hdr : ∀ c : Chars,
          (body ++ '\'' :: y :: (t ++ '\'' :: c ++ '\'' :: suf)).drop
            (body.length + 0 + 1) =
          y :: (t ++ '\'' :: c ++ '\'' :: suf) := by
        intro c
        rw [show body.length + 0 + 1 = body.length + 1 from by omega,
          List.drop_append]
        rfl
      rw [hdr c₁, hdr c₂]
      have hfuel' : ((y :: t) ++ '\'' :: c₁ ++ '\'' :: suf).length ≤ f := by
        simp at hfuel ⊢
        omega
      have := ih (y :: t) hnt c₁ c₂ suf hc1 hc2 hlen hfuel'
      simp only [List.cons_append] at this
      rw [this]

theorem dropWhileSp_append_quote (a b : Chars) :
    (a ++ '\'' :: b).dropWhile isSp = a.dropWhile isSp ++ '\'' :: b := by
  rw [List.dropWhile_append]
  by_cases h : (a.dropWhile isSp).isEmpty
  · rw [if_pos h, List.dropWhile_cons_of_neg (by decide)]
    rw [show a.dropWhile isSp = [] from by simpa [List.isEmpty_iff] using h]
    rfl
  · rw [if_neg h]

theorem rstripSp_append_quote (a b : Chars) :
    rstripSp (a ++ '\'' :: b) = a ++ '\'' :: rstripSp b := by
  unfold rstripSp
  rw [show (a ++ '\'' :: b).reverse = b.reverse ++ '\'' :: a.reverse from by
    simp]
  rw [show b.reverse ++ '\'' :: a.reverse =
    b.reverse ++ (['\''] ++ a.reverse) from rfl]
  rw [List.dropWhile_append]
  by_cases h : (b.reverse.dropWhile isSp).isEmpty
  · rw [if_pos h, List.singleton_append,
      List.dropWhile_cons_of_neg (by decide)]
    rw [show b.reverse.dropWhile isSp = [] from by
      simpa [List.isEmpty_iff] using h]
    simp
  · rw [if_neg h]
    simp

theorem trimL_split (pre c suf : Chars) :
    trimL (pre ++ '\'' :: c ++ '\'' :: suf) =
      pre.dropWhile isSp ++ '\'' :: c ++ '\'' :: rstripSp suf := by
  have h1 : (pre ++ '\'' :: c ++ '\'' :: suf).dropWhile isSp =
      pre.dropWhile isSp ++ '\'' :: (c ++ '\'' :: suf) := by
    rw [show pre ++ '\'' :: c ++ '\'' :: suf =
      pre ++ '\'' :: (c ++ '\'' :: suf) from by simp]
    exact dropWhileSp_append_quote pre _
  show rstripSp ((pre ++ '\'' :: c ++ '\'' :: suf).dropWhile isSp) = _
  rw [h1]
  rw [show pre.dropWhile isSp ++ '\'' :: (c ++ '\'' :: suf) =
    (pre.dropWhile isSp ++ '\'' :: c) ++ '\'' :: suf from by simp]
  rw [rstripSp_append_quote]

theorem prepSql_split (pre c suf : Chars) :
    prepSql (pre ++ '\'' :: c ++ '\'' :: suf) =
      pre.dropWhile isSp ++ '\'' :: c ++ '\'' :: prepSuf suf := by
  simp only [prepSql, prepSuf]
  rw [trimL_split]
  rcases hr : rstripSp suf with _ | ⟨z, zs⟩
  · have hlast : (pre.dropWhile isSp ++ '\'' :: c ++
        '\'' :: ([] : Chars)).getLast? = some '\'' := by
      rw [show pre.dropWhile isSp ++ '\'' :: c ++ '\'' :: ([] : Chars) =
        (pre.dropWhile isSp ++ '\'' :: c) ++ ['\''] from by simp]
      exact List.getLast?_concat _
    rw [hlast, if_neg (by decide), if_neg (by decide)]
  · have hne : (z :: zs) ≠ ([] : Chars) := by simp
    have hshape : pre.dropWhile isSp ++ '\'' :: c ++ '\'' :: z :: zs =
        (pre.dropWhile isSp ++ '\'' :: c ++ ['\'']) ++ (z :: zs) := by simp
    have hlast : (pre.dropWhile isSp ++ '\'' :: c ++
        '\'' :: z :: zs).getLast? = (z :: zs).getLast? := by
      rw [hshape]
      exact List.getLast?_append_of_ne_nil _ hne
    rw [hlast]
    by_cases hsemi : (z :: zs).getLast? = some ';'
    · rw [if_pos hsemi, if_pos hsemi]
      have hdl : (pre.dropWhile isSp ++ '\'' :: c ++
          '\'' :: z :: zs).dropLast =
          pre.dropWhile isSp ++ '\'' :: (c ++ '\'' :: (z :: zs).dropLast) := by
        rw [hshape, List.dropLast_append_of_ne_nil _ hne]
        simp
      rw [hdl]
      show rstripSp ((pre.dropWhile isSp ++
        '\'' :: (c ++ '\'' :: (z :: zs).dropLast)).dropWhile isSp) = _
      rw [dropWhileSp_append_quote, List.dropWhile_idempotent]
      rw [show pre.dropWhile isSp ++ '\'' :: (c ++ '\'' :: (z :: zs).dropLast) =
        (pre.dropWhile isSp ++ '\'' :: c) ++ '\'' :: (z :: zs).dropLast
        from by simp]
      rw [rstripSp_append_quote]
    · rw [if_neg hsemi, if_neg hsemi]

theorem neutralPre_dropWhile {pre : Chars} (h : NeutralPre pre) :
    NeutralPre (pre.dropWhile isSp) := by
  induction h with
  | nil => exact NeutralPre.nil
  | ch hx h ih =>
    rename_i x t
    by_cases hsp : isSp x = true
    · rw [List.dropWhile_cons_of_pos hsp]
      exact ih
    · rw [List.dropWhile_cons_of_neg (by simpa using hsp)]
      exact NeutralPre.ch hx h
  | lit hb hy h _ih =>
    rename_i body y t
    rw [dropWhileSp_append_quote ('\'' :: body) (y :: t),
      List.dropWhile_cons_of_neg (by decide : ¬isSp '\'' = true)]
    exact NeutralPre.lit hb hy h

theorem neutralPre_of_no_quote : ∀ (l : Chars), (∀ x ∈ l, x ≠ '\'') →
    NeutralPre l := by
  intro l h
  induction l with
  | nil => exact NeutralPre.nil
  | cons x t ih =>
    exact NeutralPre.ch (h x (by simp)) (ih (fun y hy => h y (by simp [hy])))

/-- **C1.** Masking invariance of the guard of src/api/query.js: the
accept/reject decision (including which error is raised) is unchanged
when the content of a single-quoted literal is replaced by any other
valid literal content of the same length.  `NeutralPre` states that the
text before the literal closes all its own literals (each followed by a
non-quote character), i.e. that the replaced segment really is one of
the literals of the statement as the masking regex lexes it. -/
theorem c1_masking_invariance (pre c₁ c₂ suf : Chars) (T : List Chars)
    (C : List (Chars × List Chars)) (hpre : NeutralPre pre)
    (hc1 : litContentOk c₁ = true) (hc2 : litContentOk c₂ = true)
    (hlen : c₁.length = c₂.length) :
    guardDecision (pre ++ '\'' :: c₁ ++ '\'' :: suf) T C =
      guardDecision (pre ++ '\'' :: c₂ ++ '\'' :: suf) T C := by
  unfold guardDecision
  have hmask : maskScan (prepSql (pre ++ '\'' :: c₁ ++ '\'' :: suf)) =
      maskScan (prepSql (pre ++ '\'' :: c₂ ++ '\'' :: suf)) := by
    rw [prepSql_split, prepSql_split]
    unfold maskScan
    have hL : (pre.dropWhile isSp ++ '\'' :: c₁ ++
        '\'' :: prepSuf suf).length =
        (pre.dropWhile isSp ++ '\'' :: c₂ ++ '\'' :: prepSuf suf).length := by
      simp [hlen]
    rw [hL]
    exact maskScanF_indep _ _ (neutralPre_dropWhile hpre) c₁ c₂ _ hc1 hc2
      hlen (le_of_eq hL)
  rw [hmask]

/-- Witness for C1: replacing the literal content `aave` by `drop` (same
length) leaves the guard decision unchanged. -/
theorem c1_masking_invariance_witness :
    guardDecision ("SELECT ts FROM public.market_data WHERE protocol = ".data
        ++ '\'' :: "aave".data ++ '\'' :: " LIMIT 5".data) [] [] =
      guardDecision ("SELECT ts FROM public.market_data WHERE protocol = ".data
        ++ '\'' :: "drop".data ++ '\'' :: " LIMIT 5".data) [] [] :=
  c1_masking_invariance _ _ _ _ [] []
    (neutralPre_of_no_quote _ (by decide)) (by decide) (by decide) (by decide)
